import Mathlib

/-!
Verification of the poisoned-drinks group-testing core.

A shallow embedding of the repository `poisoned-drinks` (files
`src/poison/stats.py`, `src/poison/experiment.py`, `src/poison/utils.py`,
`src/poison/solvers/base.py`, `src/poison/solvers/_core.py`,
`src/poison/solvers/strategy.py`) together with proofs about the embedded
definitions.

Modelling conventions:
* Python floats are modelled as exact rationals (`ℚ`); all probability
  formulas of `stats.py` are polynomial/rational in `p`, so the rational
  model computes the same field expressions exactly.
* `numpy` boolean arrays are modelled as `List Bool`; `np.argmin` over the
  first column of a list of pairs is `argminFirst` below (first index of
  the minimum, matching numpy's first-occurrence rule).
* The `lru_cache` / bottom-up memoization of the statistics engine only
  affects running time, not values; the embedding computes the same
  recurrence with a structural bottom-up table (`gpssTable`).
* Recursive/iterative solver code is embedded with an explicit fuel
  argument; all theorems supply enough fuel for the recursion depth that
  the Python code actually performs.
-/

/-! ## Definitions: the embedded program -/

/-- `BernoulliTrialCalculator.prob_at_least_one_poison`: `1 - (1 - p) ** n`. -/
def prob_at_least_one_poison (p : ℚ) (n : ℕ) : ℚ :=
  1 - (1 - p) ^ n

/-- `BernoulliTrialCalculator.prob_at_least_one_poison_but_not_in_first_x`:
`((1-p) ** x) * prob_at_least_one_poison(n - x)`. -/
def prob_at_least_one_poison_but_not_in_first_x (p : ℚ) (n x : ℕ) : ℚ :=
  (1 - p) ^ x * prob_at_least_one_poison p (n - x)

/-- Entry `x` of `BernoulliTrialCalculator.prob_no_poison_in_first_x_given_at_least_one_poison_array(n)`:
the `not_in_first_x` array divided elementwise by `prob_at_least_one_poison(n)`. -/
def prob_no_poison_in_first_x_given_at_least_one_poison (p : ℚ) (n x : ℕ) : ℚ :=
  prob_at_least_one_poison_but_not_in_first_x p n x / prob_at_least_one_poison p n

/-- `np.argmin(list, axis=0)[0]` applied to a list of `(cost, index)` pairs:
the pair whose cost is minimal, at the first position achieving the minimum
(numpy returns the first occurrence).  Empty list: degenerate `(0, 0)`
(numpy would raise; never reached for the sizes the code uses). -/
def argminFirst (l : List (ℚ × ℕ)) : ℚ × ℕ :=
  match l with
  | [] => (0, 0)
  | c :: t => t.foldl (fun best cand => if cand.1 < best.1 then cand else best) c

/-- The `x = 0` entry of the candidate list built by
`get_poisoned_group_size_statistics`: round-robin over the first `n-1`
glasses, the last one inferred when all of them were clean. -/
def roundRobinCandidateCost (p : ℚ) (n : ℕ) : ℚ :=
  prob_no_poison_in_first_x_given_at_least_one_poison p n (n - 1) * ((n : ℚ) - 1)
    + (1 - prob_no_poison_in_first_x_given_at_least_one_poison p n (n - 1)) * n

/-- The `x ≥ 1` entries of the candidate list built by
`get_poisoned_group_size_statistics`, with `E` the expected-tests component
of the recursive calls (the memoized `get_poisoned_group_size_statistics(·)[0]`).
The `(1 - prob) * 0 + prob * E` shape of the source is kept verbatim. -/
def splitCandidateCost (p : ℚ) (E : ℕ → ℚ) (n x : ℕ) : ℚ :=
  1 + prob_no_poison_in_first_x_given_at_least_one_poison p n x * E (n - x)
    + (1 - prob_no_poison_in_first_x_given_at_least_one_poison p n x) *
        (E x +
          1 + ((1 - prob_at_least_one_poison p (n - x)) * 0 +
                prob_at_least_one_poison p (n - x) * E (n - x)))

/-- The full candidate list `expected_number_of_tests_on_split` of
`get_poisoned_group_size_statistics`: the round-robin candidate `(…, 0)`
followed by one split candidate `(…, x)` for each `x in range(1, n)`. -/
def poisonedGroupCandidates (p : ℚ) (E : ℕ → ℚ) (n : ℕ) : List (ℚ × ℕ) :=
  (roundRobinCandidateCost p n, 0) ::
    (List.range (n - 1)).map (fun k => (splitCandidateCost p E (n := n) (k + 1), k + 1))

/-- Bottom-up memo table of `get_poisoned_group_size_statistics`:
`gpssTable p n` lists the statistics for group sizes `0, 1, …, n-1`
(the values the `lru_cache` would hold after computing sizes below `n`). -/
def gpssTable (p : ℚ) : ℕ → List (ℚ × ℕ)
  | 0 => []
  | n + 1 =>
    let t := gpssTable p n
    t ++ [argminFirst (poisonedGroupCandidates p (fun m => (t.getD m (0, 0)).1) n)]

/-- `BernoulliTrialCalculator.get_poisoned_group_size_statistics(n)`:
the `(expected number of tests, split point)` pair for a group of size `n`
known to contain at least one poisoned glass. -/
def get_poisoned_group_size_statistics (p : ℚ) (n : ℕ) : ℚ × ℕ :=
  (gpssTable p (n + 1)).getD n (0, 0)

/-- `BernoulliTrialCalculator.get_poisoned_group_size_split_point(n)`. -/
def get_poisoned_group_size_split_point (p : ℚ) (n : ℕ) : ℕ :=
  (get_poisoned_group_size_statistics p n).2

/-- `BernoulliTrialCalculator.get_poisoned_group_size_expected_number_of_tests(n)`. -/
def get_poisoned_group_size_expected_number_of_tests (p : ℚ) (n : ℕ) : ℚ :=
  (get_poisoned_group_size_statistics p n).1

/-- One candidate of `BernoulliTrialCalculator.get_group_size_statistics`:
the expected total number of tests when the population of `n` glasses is
partitioned into top-level groups of size `group_size`
(`np.floor(n / group_size)` on natural numbers is natural division). -/
def topLevelGroupCost (p : ℚ) (n group_size : ℕ) : ℚ :=
  ((n / group_size : ℕ) : ℚ) *
      (1 + prob_at_least_one_poison p group_size *
        get_poisoned_group_size_expected_number_of_tests p group_size)
    + (if n % group_size = 0 then (0 : ℚ)
       else 1 + prob_at_least_one_poison p (n % group_size) *
         get_poisoned_group_size_expected_number_of_tests p (n % group_size))

/-- `BernoulliTrialCalculator.get_group_size_statistics(n)`: minimizes the
expected total number of tests over top-level group sizes `1 … n`. -/
def get_group_size_statistics (p : ℚ) (n : ℕ) : ℚ × ℕ :=
  argminFirst ((List.range n).map (fun k => (topLevelGroupCost p n (k + 1), k + 1)))

/-- Recursive form of "the first pair achieving the minimal cost", used to
state the spec-side tie-breaking rule: on a tie the earlier candidate wins. -/
def firstMinBy : List (ℚ × ℕ) → ℚ × ℕ
  | [] => (0, 0)
  | [c] => c
  | c :: d :: t =>
    let m := firstMinBy (d :: t)
    if c.1 ≤ m.1 then c else m

/-- Modelled from the spec wording of claim C2: the cost of splitting a
known-poisoned group of size `n` at `x`:
one test on the first `x`, plus `P(first x clean | ≥1) · E(n-x)`, plus
`P(not clean first x | ≥1) · (E(x) + 1 + P(≥1 in n-x) · E(n-x))`,
with `E` the expectedTests component of `groupStatistic`. -/
def specSplitScrutinyCost (p : ℚ) (n x : ℕ) : ℚ :=
  1 + prob_no_poison_in_first_x_given_at_least_one_poison p n x *
        (get_poisoned_group_size_statistics p (n - x)).1
    + (1 - prob_no_poison_in_first_x_given_at_least_one_poison p n x) *
        ((get_poisoned_group_size_statistics p x).1 + 1 +
          prob_at_least_one_poison p (n - x) *
            (get_poisoned_group_size_statistics p (n - x)).1)

/-- Modelled from the spec wording of claim C2: the baseline (`x = 0`,
linear scan) cost `P(first n-1 clean | ≥1 contaminated) · (n-1) +
P(not clean) · n`, with `P(not clean)` the complement of the first
conditional probability. -/
def specLinearScanCost (p : ℚ) (n : ℕ) : ℚ :=
  prob_no_poison_in_first_x_given_at_least_one_poison p n (n - 1) * ((n : ℚ) - 1)
    + (1 - prob_no_poison_in_first_x_given_at_least_one_poison p n (n - 1)) * n

/-- Modelled from the spec wording of claim C2: the candidate list
`{baseline (x = 0)} ∪ {split candidates x ∈ [1, n-1]}` in search order. -/
def specPoisonedGroupCandidates (p : ℚ) (n : ℕ) : List (ℚ × ℕ) :=
  (specLinearScanCost p n, 0) ::
    (List.range (n - 1)).map (fun k => (specSplitScrutinyCost p n (k + 1), k + 1))

structure PoisonedDrinksExperiment where
  glasses : List Bool
  poison_chance : ℚ

def PoisonedDrinksExperiment.num_glasses (e : PoisonedDrinksExperiment) : ℕ :=
  e.glasses.length

/-- `PoisonedDrinksExperiment.__init__`.  `num_glasses` is an arbitrary
integer argument; `np.random.random([num_glasses])` raises
`ValueError: negative dimensions are not allowed` exactly when
`num_glasses < 0`, and no other validation is performed by the constructor
(neither `poison_chance` nor `num_glasses = 0` is checked). -/
def PoisonedDrinksExperiment.init (num_glasses : ℤ) (poison_chance : ℚ)
    (randoms : ℕ → ℚ) : Except String PoisonedDrinksExperiment :=
  if num_glasses < 0 then .error "negative dimensions are not allowed"
  else .ok { glasses :=
               (List.range num_glasses.toNat).map
                 (fun i => decide (randoms i ≤ poison_chance))
           , poison_chance := poison_chance }

/-- `PoisonedDrinksExperiment.check_poison`: does any of the given glasses
contain poison (`np.any` over the indexed selection)? -/
def PoisonedDrinksExperiment.check_poison (e : PoisonedDrinksExperiment)
    (glasses_indices : List ℕ) : Bool :=
  glasses_indices.any (fun i => e.glasses.getD i false)

/-- `PoisonedDrinksExperiment.check_solution`: `np.all(glasses == solution)`
(the solver always proposes a vector of the same length). -/
def PoisonedDrinksExperiment.check_solution (e : PoisonedDrinksExperiment)
    (solution : List Bool) : Bool :=
  e.glasses == solution

/-- The mutable solver state: `self.__num_tests` and `self.__solution`. -/
structure SolverState where
  num_tests : ℕ
  solution : List Bool

/-- `PoisonedDrinksSolver.load_experiment`: reset the counters and start
from the all-zeros solution vector. -/
def load_experiment (e : PoisonedDrinksExperiment) : SolverState :=
  ⟨0, List.replicate e.num_glasses false⟩

/-- `PoisonedDrinksSolver.check_for_poison`: one oracle query; increments
the test counter. -/
def check_for_poison (e : PoisonedDrinksExperiment) (st : SolverState)
    (glasses_indices : List ℕ) : Bool × SolverState :=
  (e.check_poison glasses_indices, { st with num_tests := st.num_tests + 1 })

/-- `PoisonedDrinksSolver.mark_as_poison`: set `solution[glass_index] = 1`. -/
def mark_as_poison (st : SolverState) (glass_index : ℕ) : SolverState :=
  { st with solution := st.solution.set glass_index true }

/-- `PoisonedDrinksSolver.solve`: run the variant's `_solve_core` (passed as
`core`), then raise `ArithmeticError` when the derived solution does not
match ground truth. -/
def solve (e : PoisonedDrinksExperiment) (core : SolverState → SolverState) :
    Except String SolverState :=
  let st := core (load_experiment e)
  if e.check_solution st.solution then .ok st
  else .error "The solution is incorrect. Fix your solver."

/-- Loop body of `PoisonedGroupStrategies.round_robin_plus`, recursing over
the remaining indices of `range(i_start, i_end)` and carrying the
`found_poison` flag.  When no poison was found yet and `i` is the last
index, Python's `or` short-circuits: the glass is marked without a test. -/
def round_robin_plus_aux (e : PoisonedDrinksExperiment) (i_end : ℕ) :
    List ℕ → Bool → SolverState → SolverState
  | [], _, st => st
  | i :: rest, found_poison, st =>
    if !found_poison && i == i_end - 1 then
      round_robin_plus_aux e i_end rest true (mark_as_poison st i)
    else
      let r := check_for_poison e st [i]
      if r.1 then round_robin_plus_aux e i_end rest true (mark_as_poison r.2 i)
      else round_robin_plus_aux e i_end rest found_poison r.2

/-- `PoisonedGroupStrategies.round_robin_plus`: greedy round robin that
marks the last glass as poisoned when all previous glasses tested clean. -/
def round_robin_plus (e : PoisonedDrinksExperiment) (i_start i_end : ℕ)
    (st : SolverState) : SolverState :=
  round_robin_plus_aux e i_end (List.range' i_start (i_end - i_start)) false st

/-- Python truthiness of a split-strategy result: `None` and `0` are falsy
(`if not i_split` in `_deep_dive_poisoned_group`). -/
def split_is_falsy : Option ℕ → Bool
  | none => true
  | some v => v == 0

/-- `PoisonedGroupSplitStrategies.middle`: `(i_start + i_end) // 2`.
(The Python function always returns an integer; it is wrapped in `some` to
share the `Option ℕ` split-strategy interface with the strategy below.) -/
def middle (i_start i_end : ℕ) : Option ℕ :=
  some ((i_start + i_end) / 2)

/-- `PoisonedGroupSplitStrategies.minimum_expected_tests_complete`: `None`
when the engine's split point for the group size is `0`, otherwise
`i_start + split_delta`. -/
def minimum_expected_tests_complete (p : ℚ) (i_start i_end : ℕ) : Option ℕ :=
  let split_delta := get_poisoned_group_size_split_point p (i_end - i_start)
  if split_delta = 0 then none else some (i_start + split_delta)

/-- `SolverDeepDive._deep_dive_poisoned_group`.  The split strategy is a
function of the group bounds (its `p` argument is already applied for
`minimum_expected_tests_complete`). -/
def deep_dive_poisoned_group (e : PoisonedDrinksExperiment)
    (split : ℕ → ℕ → Option ℕ) :
    ℕ → ℕ → ℕ → SolverState → SolverState
  | 0, _, _, st => st
  | fuel + 1, i_start, i_end, st =>
    if i_end - i_start == 1 then mark_as_poison st i_start
    else if 1 < i_end - i_start then
      let o := split i_start i_end
      if split_is_falsy o then round_robin_plus e i_start i_end st
      else
        let i_split := o.getD 0
        let left := check_for_poison e st (List.range' i_start (i_split - i_start))
        if left.1 then
          let st2 := deep_dive_poisoned_group e split fuel i_start i_split left.2
          let right := check_for_poison e st2 (List.range' i_split (i_end - i_split))
          if right.1 then deep_dive_poisoned_group e split fuel i_split i_end right.2
          else right.2
        else deep_dive_poisoned_group e split fuel i_split i_end left.2
    else st

/-- The batch loop of `SolverTwoLevels._solve_core`.  The Python `for` loop
iterates `i_start` over `range(0, n, top_level_group_size)`; for a positive
group size this is the same as advancing `i_start` to
`i_end = min(i_start + size, n)` while `i_start < n`, which is the shape
used here (driven by fuel). -/
def solver_two_levels_loop (e : PoisonedDrinksExperiment)
    (top_level_group_size : ℕ)
    (poisoned_group_strategy : ℕ → ℕ → SolverState → SolverState) :
    ℕ → ℕ → SolverState → SolverState
  | 0, _, st => st
  | fuel + 1, i_start, st =>
    if i_start < e.num_glasses then
      let i_end := min (i_start + top_level_group_size) e.num_glasses
      let r := check_for_poison e st (List.range' i_start (i_end - i_start))
      let st2 := if r.1 then poisoned_group_strategy i_start i_end r.2 else r.2
      solver_two_levels_loop e top_level_group_size poisoned_group_strategy
        fuel i_end st2
    else st

/-- `SolverTwoLevels._solve_core` with the chosen top-level group size and
poisoned-group strategy. -/
def solver_two_levels_core (e : PoisonedDrinksExperiment)
    (top_level_group_size : ℕ)
    (poisoned_group_strategy : ℕ → ℕ → SolverState → SolverState)
    (st : SolverState) : SolverState :=
  solver_two_levels_loop e top_level_group_size poisoned_group_strategy
    e.num_glasses 0 st

/-- Loop body of `SolverEarlyStop._early_stop_round_robin_plus`; carries
`last_poison_index`, which the Python code initializes to `None` and never
reassigns.  Falls off the loop (returning `last_poison_index`, i.e. `None`)
only when the index list is empty. -/
def early_stop_round_robin_plus_aux (e : PoisonedDrinksExperiment)
    (i_end : ℕ) :
    List ℕ → Option ℕ → SolverState → Option ℕ × SolverState
  | [], last_poison_index, st => (last_poison_index, st)
  | i :: rest, last_poison_index, st =>
    if last_poison_index == none && i == i_end - 1 then
      (some i, mark_as_poison st i)
    else
      let r := check_for_poison e st [i]
      if r.1 then (some i, mark_as_poison r.2 i)
      else early_stop_round_robin_plus_aux e i_end rest last_poison_index r.2

/-- `SolverEarlyStop._early_stop_round_robin_plus`. -/
def early_stop_round_robin_plus (e : PoisonedDrinksExperiment)
    (i_start i_end : ℕ) (st : SolverState) : Option ℕ × SolverState :=
  early_stop_round_robin_plus_aux e i_end
    (List.range' i_start (i_end - i_start)) none st

/-- `SolverEarlyStop._early_stop_deep_dive_poisoned_group`.  After the
`found_poison_left` branch returns, the remaining `if` is reached only with
`found_poison_left = False`, so its `or` short-circuits and the test on the
right half is never executed; the translation reflects the executed
behaviour.  The implicit `return None` fall-through (group size `< 1`) is
the final case. -/
def early_stop_deep_dive_poisoned_group (e : PoisonedDrinksExperiment)
    (split : ℕ → ℕ → Option ℕ) :
    ℕ → ℕ → ℕ → SolverState → Option ℕ × SolverState
  | 0, _, _, st => (none, st)
  | fuel + 1, i_start, i_end, st =>
    if i_end - i_start == 1 then (some i_start, mark_as_poison st i_start)
    else if 1 < i_end - i_start then
      let o := split i_start i_end
      if split_is_falsy o then early_stop_round_robin_plus e i_start i_end st
      else
        let i_split := o.getD 0
        let left := check_for_poison e st (List.range' i_start (i_split - i_start))
        if left.1 then
          early_stop_deep_dive_poisoned_group e split fuel i_start i_split left.2
        else
          early_stop_deep_dive_poisoned_group e split fuel i_split i_end left.2
    else (none, st)

/-- The `while i_start < n` loop of `SolverEarlyStop._solve_core`.  On a
positive batch the next batch starts right after the found poisoned glass.
If the scrutiny returned `None` the Python code would raise a `TypeError`
on `None + 1`; that case (proved unreachable in claim C10) stops the loop
here. -/
def solver_early_stop_loop (e : PoisonedDrinksExperiment)
    (top_level_group_size : ℕ) (split : ℕ → ℕ → Option ℕ) :
    ℕ → ℕ → SolverState → SolverState
  | 0, _, st => st
  | fuel + 1, i_start, st =>
    if i_start < e.num_glasses then
      let i_end := min (i_start + top_level_group_size) e.num_glasses
      let r := check_for_poison e st (List.range' i_start (i_end - i_start))
      if r.1 then
        match early_stop_deep_dive_poisoned_group e split (i_end - i_start)
            i_start i_end r.2 with
        | (some idx, st2) =>
          solver_early_stop_loop e top_level_group_size split fuel (idx + 1) st2
        | (none, st2) => st2
      else solver_early_stop_loop e top_level_group_size split fuel i_end r.2
    else st

/-- `SolverEarlyStop._solve_core`. -/
def solver_early_stop_core (e : PoisonedDrinksExperiment)
    (top_level_group_size : ℕ) (split : ℕ → ℕ → Option ℕ)
    (st : SolverState) : SolverState :=
  solver_early_stop_loop e top_level_group_size split e.num_glasses 0 st

/-- Ground-truth of a single glass (out-of-range indices read as clean;
the solvers only index inside the experiment). -/
def poisoned (e : PoisonedDrinksExperiment) (i : ℕ) : Bool :=
  e.glasses.getD i false

/-- The solution entry for glass `j` (out-of-range reads as unmarked). -/
def sol_at (st : SolverState) (j : ℕ) : Bool :=
  st.solution.getD j false

/-- A split strategy as the deep-dive recursion relies on it: for a group
of size at least 2 it is either falsy (deferring to round robin) or a point
strictly inside the group.  Both catalog strategies satisfy this. -/
def valid_split (split : ℕ → ℕ → Option ℕ) : Prop :=
  ∀ a b, 1 < b - a →
    split_is_falsy (split a b) = true ∨
      ∃ v, split a b = some v ∧ a < v ∧ v < b

/-- A two-glass experiment used to instantiate the solver theorems. -/
def exampleExperimentTF : PoisonedDrinksExperiment :=
  { glasses := [true, false], poison_chance := 1/2 }

/-- An experiment with every glass poisoned: on it the early-stop solver
issues strictly more total tests than the deep-dive solver with the same
top-level batch size and split strategy. -/
def exampleExperimentAllPoisoned : PoisonedDrinksExperiment :=
  { glasses := [true, true, true, true], poison_chance := 1/4 }

/-- The concrete scenario of claim C5: n = 8, p = 1/2, ground truth
`[0,0,1,0,0,0,1,0]`. -/
def exampleExperimentScenario8 : PoisonedDrinksExperiment :=
  { glasses := [false, false, true, false, false, false, true, false]
  , poison_chance := 1/2 }

/-! ## Theorems -/

theorem firstMinBy_singleton (a : ℚ × ℕ) : firstMinBy [a] = a := rfl

theorem firstMinBy_cons_cons (a d : ℚ × ℕ) (t : List (ℚ × ℕ)) :
    firstMinBy (a :: d :: t) =
      if a.1 ≤ (firstMinBy (d :: t)).1 then a else firstMinBy (d :: t) := rfl

theorem firstMinBy_le : ∀ (l : List (ℚ × ℕ)), ∀ c ∈ l, (firstMinBy l).1 ≤ c.1
  | [], c, hc => by cases hc
  | [a], c, hc => by
    rcases List.mem_singleton.mp hc with rfl
    exact le_refl _
  | a :: d :: t, c, hc => by
    have ih := firstMinBy_le (d :: t)
    rw [firstMinBy_cons_cons]
    rcases List.mem_cons.mp hc with rfl | hc2
    · split
      · exact le_refl _
      · exact le_of_lt (not_le.mp (by assumption))
    · have h3 := ih c hc2
      split
      · exact le_trans (by assumption) h3
      · exact h3

theorem firstMinBy_mem : ∀ (l : List (ℚ × ℕ)), l ≠ [] → firstMinBy l ∈ l
  | [], h => absurd rfl h
  | [a], _ => by rw [firstMinBy_singleton]; exact List.mem_singleton_self a
  | a :: d :: t, _ => by
    rw [firstMinBy_cons_cons]
    split
    · exact List.mem_cons_self _ _
    · exact List.mem_cons_of_mem _ (firstMinBy_mem (d :: t) (by simp))

theorem foldl_min_eq_firstMinBy :
    ∀ (l : List (ℚ × ℕ)) (b : ℚ × ℕ),
      l.foldl (fun best cand => if cand.1 < best.1 then cand else best) b =
        firstMinBy (b :: l)
  | [], b => by simp [firstMinBy_singleton]
  | c :: t, b => by
    have ih := foldl_min_eq_firstMinBy t (if c.1 < b.1 then c else b)
    simp only [List.foldl_cons] at ih ⊢
    rw [ih]
    cases t with
    | nil =>
      by_cases h : c.1 < b.1
      · simp [firstMinBy_cons_cons, firstMinBy_singleton, if_pos h, not_le.mpr h]
      · simp [firstMinBy_cons_cons, firstMinBy_singleton, if_neg h, le_of_not_lt h]
    | cons d t2 =>
      rw [firstMinBy_cons_cons b c (d :: t2), firstMinBy_cons_cons c d t2]
      by_cases h : c.1 < b.1
      · simp only [if_pos h, firstMinBy_cons_cons c d t2]
        split_ifs <;> first | rfl | (exfalso; linarith)
      · have hbc : b.1 ≤ c.1 := le_of_not_lt h
        simp only [if_neg h, firstMinBy_cons_cons b d t2]
        split_ifs <;> first | rfl | (exfalso; linarith)

theorem argminFirst_eq_firstMinBy (l : List (ℚ × ℕ)) : argminFirst l = firstMinBy l := by
  cases l with
  | nil => rfl
  | cons c t => exact foldl_min_eq_firstMinBy t c

theorem argminFirst_le (l : List (ℚ × ℕ)) : ∀ c ∈ l, (argminFirst l).1 ≤ c.1 := by
  rw [argminFirst_eq_firstMinBy]; exact firstMinBy_le l

theorem argminFirst_mem (l : List (ℚ × ℕ)) (h : l ≠ []) : argminFirst l ∈ l := by
  rw [argminFirst_eq_firstMinBy]; exact firstMinBy_mem l h

theorem gpssTable_succ (p : ℚ) (n : ℕ) :
    gpssTable p (n + 1) =
      gpssTable p n ++
        [argminFirst (poisonedGroupCandidates p
          (fun m => ((gpssTable p n).getD m (0, 0)).1) n)] := rfl

theorem gpssTable_length (p : ℚ) : ∀ n, (gpssTable p n).length = n
  | 0 => rfl
  | n + 1 => by
    rw [gpssTable_succ, List.length_append, gpssTable_length p n]
    rfl

theorem getD_append_self (v d : ℚ × ℕ) :
    ∀ t : List (ℚ × ℕ), (t ++ [v]).getD t.length d = v
  | [] => rfl
  | a :: t => by
    simp [getD_append_self v d t]

theorem getD_append_at_length (v d : ℚ × ℕ) (t : List (ℚ × ℕ)) (m : ℕ)
    (h : m = t.length) : (t ++ [v]).getD m d = v := by
  subst h; exact getD_append_self v d t

theorem getD_append_lt (v d : ℚ × ℕ) :
    ∀ (t : List (ℚ × ℕ)) (m : ℕ), m < t.length → (t ++ [v]).getD m d = t.getD m d
  | [], m, h => by cases h
  | a :: t, 0, _ => rfl
  | a :: t, m + 1, h => by
    simpa using getD_append_lt v d t m (by simpa using h)

theorem gpssTable_getD (p : ℚ) :
    ∀ n m, m < n →
      (gpssTable p n).getD m (0, 0) = get_poisoned_group_size_statistics p m
  | 0, m, h => by cases h
  | n + 1, m, h => by
    rcases Nat.lt_succ_iff_lt_or_eq.mp h with h2 | rfl
    · rw [gpssTable_succ, getD_append_lt _ _ _ _ (by rw [gpssTable_length]; exact h2)]
      exact gpssTable_getD p n m h2
    · rfl

theorem poisonedGroupCandidates_congr (p : ℚ) (E E' : ℕ → ℚ) (n : ℕ)
    (h : ∀ m, m < n → E m = E' m) :
    poisonedGroupCandidates p E n = poisonedGroupCandidates p E' n := by
  unfold poisonedGroupCandidates
  congr 1
  apply List.map_congr_left
  intro k hk
  have hk2 : k < n - 1 := List.mem_range.mp hk
  unfold splitCandidateCost
  rw [h (k + 1) (by omega), h (n - (k + 1)) (by omega)]

/-- The memoized `get_poisoned_group_size_statistics(n)` satisfies the
minimization recurrence of the source verbatim: it is the first minimum of
the candidate list, whose split candidates call the function itself at the
strictly smaller sizes `x` and `n - x`. -/
theorem gpss_unfold (p : ℚ) (n : ℕ) :
    get_poisoned_group_size_statistics p n =
      argminFirst (poisonedGroupCandidates p
        (fun m => (get_poisoned_group_size_statistics p m).1) n) := by
  show (gpssTable p (n + 1)).getD n (0, 0) = _
  rw [gpssTable_succ, getD_append_at_length _ _ _ _ (gpssTable_length p n).symm]
  congr 1
  apply poisonedGroupCandidates_congr
  intro m hm
  rw [gpssTable_getD p n m hm]

theorem prob_no_poison_given_at_least_one_self (p : ℚ) (hp : p ≠ 0) :
    prob_no_poison_in_first_x_given_at_least_one_poison p 1 0 = 1 := by
  have hpalo : prob_at_least_one_poison p 1 = p := by
    unfold prob_at_least_one_poison; ring
  unfold prob_no_poison_in_first_x_given_at_least_one_poison
    prob_at_least_one_poison_but_not_in_first_x
  rw [show (1 - 0 : ℕ) = 1 from rfl, hpalo, pow_zero, one_mul]
  exact div_self hp

/-- A poisoned group of size 1 needs no tests: `groupStatistic(1) = (0, 0)`. -/
theorem gpss_one (p : ℚ) (hp : p ≠ 0) :
    get_poisoned_group_size_statistics p 1 = (0, 0) := by
  rw [gpss_unfold]
  have hc : poisonedGroupCandidates p
      (fun m => (get_poisoned_group_size_statistics p m).1) 1 =
      [(roundRobinCandidateCost p 1, 0)] := rfl
  have h : roundRobinCandidateCost p 1 = 0 := by
    unfold roundRobinCandidateCost
    simp only [Nat.sub_self]
    rw [prob_no_poison_given_at_least_one_self p hp]
    push_cast
    ring
  rw [hc, show argminFirst [(roundRobinCandidateCost p 1, 0)] =
      (roundRobinCandidateCost p 1, 0) from rfl, h]

/-- The split-point component is always an index into the candidate list:
`0` or some `x ∈ [1, n-1]`; in particular it is `< n`. -/
theorem gpss_snd_lt (p : ℚ) (n : ℕ) (hn : 1 ≤ n) :
    (get_poisoned_group_size_statistics p n).2 < n := by
  rw [gpss_unfold]
  unfold poisonedGroupCandidates
  have hmem := argminFirst_mem
    ((roundRobinCandidateCost p n, 0) ::
      (List.range (n - 1)).map (fun k =>
        (splitCandidateCost p (fun m => (get_poisoned_group_size_statistics p m).1)
          (n := n) (k + 1), k + 1)))
    (by simp)
  rcases List.mem_cons.mp hmem with h | h
  · rw [h]; exact hn
  · rcases List.mem_map.mp h with ⟨k, hk, hk2⟩
    rw [← hk2]
    have := List.mem_range.mp hk
    omega

/-- C2. For every n ≥ 1 and p ∈ (0,1), `groupStatistic(n)`
(`get_poisoned_group_size_statistics`) returns the `(expectedTests, splitPoint)`
pair that minimizes expected cost over the baseline `x = 0` (linear scan, with
cost `P(first n-1 clean | ≥1 contaminated)·(n-1) + P(not clean)·n`) together
with every candidate split `x ∈ [1, n-1]` (cost
`1 + P(first x clean | ≥1)·E(n-x) + P(not clean first x | ≥1)·(E(x) + 1 + P(≥1 in n-x)·E(n-x))`),
and on ties it returns the pair for the numerically first minimizing candidate
in the search order `0, 1, …, n-1` (`firstMinBy` keeps the earlier candidate on
a tie). -/
theorem C2_group_statistic_is_first_minimizer (p : ℚ) (n : ℕ)
    (hn : 1 ≤ n) (hp0 : 0 < p) (hp1 : p < 1) :
    get_poisoned_group_size_statistics p n =
      firstMinBy (specPoisonedGroupCandidates p n) := by
  rw [gpss_unfold, ← argminFirst_eq_firstMinBy]
  congr 1
  unfold poisonedGroupCandidates specPoisonedGroupCandidates
  rw [show specLinearScanCost p n = roundRobinCandidateCost p n from rfl]
  congr 1
  apply List.map_congr_left
  intro k hk
  have : splitCandidateCost p
      (fun m => (get_poisoned_group_size_statistics p m).1) (n := n) (k + 1) =
      specSplitScrutinyCost p n (k + 1) := by
    unfold splitCandidateCost specSplitScrutinyCost
    ring
  rw [this]

/-- Witness for C2 at `n = 2`, `p = 1/2`. -/
theorem C2_group_statistic_is_first_minimizer_witness :
    ((1 : ℕ) ≤ 2 ∧ (0 : ℚ) < 1/2 ∧ (1 : ℚ)/2 < 1) ∧
      get_poisoned_group_size_statistics (1/2) 2 =
        firstMinBy (specPoisonedGroupCandidates (1/2) 2) :=
  ⟨⟨by norm_num, by norm_num, by norm_num⟩,
    C2_group_statistic_is_first_minimizer (1/2) 2 (by norm_num) (by norm_num)
      (by norm_num)⟩

theorem topLevelGroupCost_one (p : ℚ) (n : ℕ) (hp : p ≠ 0) :
    topLevelGroupCost p n 1 = (n : ℚ) := by
  unfold topLevelGroupCost get_poisoned_group_size_expected_number_of_tests
  rw [gpss_one p hp]
  simp [Nat.div_one, Nat.mod_one]

/-- C7. For every n ≥ 1 and p ∈ (0,1), the expectedTests component of
`topLevelGroupStatistic(n)` (`get_group_size_statistics`) is at most the
expected cost the same formula assigns to group size 1 (the trivial
all-linear-scan strategy), and that cost equals `n` (because
`groupStatistic(1).expectedTests = 0`). -/
theorem C7_top_level_le_full_scan (p : ℚ) (n : ℕ)
    (hn : 1 ≤ n) (hp0 : 0 < p) (hp1 : p < 1) :
    (get_group_size_statistics p n).1 ≤ topLevelGroupCost p n 1 ∧
      topLevelGroupCost p n 1 = (n : ℚ) := by
  constructor
  · unfold get_group_size_statistics
    exact argminFirst_le _ (topLevelGroupCost p n 1, 1)
      (List.mem_map.mpr ⟨0, List.mem_range.mpr (by omega), rfl⟩)
  · exact topLevelGroupCost_one p n (ne_of_gt hp0)

/-- Witness for C7 at `n = 3`, `p = 1/2`. -/
theorem C7_top_level_le_full_scan_witness :
    ((1 : ℕ) ≤ 3 ∧ (0 : ℚ) < 1/2 ∧ (1 : ℚ)/2 < 1) ∧
      ((get_group_size_statistics (1/2) 3).1 ≤ topLevelGroupCost (1/2) 3 1 ∧
        topLevelGroupCost (1/2) 3 1 = (3 : ℚ)) :=
  ⟨⟨by norm_num, by norm_num, by norm_num⟩,
    C7_top_level_le_full_scan (1/2) 3 (by norm_num) (by norm_num) (by norm_num)⟩

theorem getD_set_self (b : Bool) :
    ∀ (l : List Bool) (i : ℕ), i < l.length → (l.set i b).getD i false = b
  | [], i, h => by cases h
  | a :: t, 0, _ => rfl
  | a :: t, i + 1, h => by
    simpa using getD_set_self b t i (by simpa using h)

theorem getD_set_other (b : Bool) :
    ∀ (l : List Bool) (i j : ℕ), j ≠ i → (l.set i b).getD j false = l.getD j false
  | [], i, j, _ => by simp
  | a :: t, 0, 0, h => absurd rfl h
  | a :: t, 0, j + 1, _ => by simp
  | a :: t, i + 1, 0, _ => by simp
  | a :: t, i + 1, j + 1, h => by
    simpa using getD_set_other b t i j (by omega)

theorem list_eq_of_getD :
    ∀ (l1 l2 : List Bool), l1.length = l2.length →
      (∀ j, l1.getD j false = l2.getD j false) → l1 = l2
  | [], [], _, _ => rfl
  | [], b :: u, h, _ => by cases h
  | a :: t, [], h, _ => by cases h
  | a :: t, b :: u, h, hj => by
    have h0 := hj 0
    simp only [List.getD_cons_zero] at h0
    rw [h0, list_eq_of_getD t u (by simpa using h) (fun j => by simpa using hj (j + 1))]

theorem mark_num_tests (st : SolverState) (i : ℕ) :
    (mark_as_poison st i).num_tests = st.num_tests := rfl

theorem mark_length (st : SolverState) (i : ℕ) :
    (mark_as_poison st i).solution.length = st.solution.length := by
  unfold mark_as_poison
  simp

theorem mark_sol_at_self (st : SolverState) (i : ℕ) (h : i < st.solution.length) :
    sol_at (mark_as_poison st i) i = true :=
  getD_set_self true st.solution i h

theorem mark_sol_at_other (st : SolverState) (i j : ℕ) (h : j ≠ i) :
    sol_at (mark_as_poison st i) j = sol_at st j :=
  getD_set_other true st.solution i j h

theorem getD_false_of_ge :
    ∀ (l : List Bool) (j : ℕ), l.length ≤ j → l.getD j false = false
  | [], j, _ => by simp
  | a :: t, 0, h => by simp at h
  | a :: t, j + 1, h => by
    simpa using getD_false_of_ge t j (by simpa using h)

theorem mark_monotone (st : SolverState) (i j : ℕ) (h : sol_at st j = true) :
    sol_at (mark_as_poison st i) j = true := by
  by_cases hji : j = i
  · subst hji
    have hlen : j < st.solution.length := by
      by_contra hge
      rw [sol_at, getD_false_of_ge st.solution j (by omega)] at h
      cases h
    exact mark_sol_at_self st j hlen
  · rw [mark_sol_at_other st i j hji]; exact h

theorem check_solution_eq (e : PoisonedDrinksExperiment) (st : SolverState)
    (idx : List ℕ) : (check_for_poison e st idx).2.solution = st.solution := rfl

theorem check_num_tests (e : PoisonedDrinksExperiment) (st : SolverState)
    (idx : List ℕ) :
    (check_for_poison e st idx).2.num_tests = st.num_tests + 1 := rfl

theorem check_fst (e : PoisonedDrinksExperiment) (st : SolverState)
    (idx : List ℕ) : (check_for_poison e st idx).1 = e.check_poison idx := rfl

/-- The oracle answer on a contiguous range, characterized pointwise. -/
theorem check_poison_range (e : PoisonedDrinksExperiment) (s k : ℕ) :
    e.check_poison (List.range' s k) = true ↔
      ∃ j, s ≤ j ∧ j < s + k ∧ poisoned e j = true := by
  unfold PoisonedDrinksExperiment.check_poison
  rw [List.any_eq_true]
  constructor
  · rintro ⟨j, hj, hp⟩
    have := List.mem_range'_1.mp hj
    exact ⟨j, this.1, this.2, hp⟩
  · rintro ⟨j, h1, h2, hp⟩
    exact ⟨j, List.mem_range'_1.mpr ⟨h1, h2⟩, hp⟩

theorem check_poison_range_false (e : PoisonedDrinksExperiment) (s k : ℕ)
    (h : e.check_poison (List.range' s k) = false) :
    ∀ j, s ≤ j → j < s + k → poisoned e j = false := by
  intro j h1 h2
  by_contra hne
  have hp : poisoned e j = true := by
    cases hpj : poisoned e j
    · exact absurd hpj hne
    · rfl
  have := (check_poison_range e s k).mpr ⟨j, h1, h2, hp⟩
  rw [h] at this
  cases this

theorem check_poison_singleton (e : PoisonedDrinksExperiment) (i : ℕ) :
    e.check_poison [i] = poisoned e i := by
  unfold PoisonedDrinksExperiment.check_poison poisoned
  simp

theorem range'_succ_eq (s n : ℕ) :
    List.range' s (n + 1) = s :: List.range' (s + 1) n := rfl

theorem check_poison_cons (e : PoisonedDrinksExperiment) (i : ℕ) (l : List ℕ) :
    e.check_poison (i :: l) = (poisoned e i || e.check_poison l) := rfl

theorem round_robin_plus_aux_cons (e : PoisonedDrinksExperiment)
    (i_end i : ℕ) (rest : List ℕ) (found : Bool) (st : SolverState) :
    round_robin_plus_aux e i_end (i :: rest) found st =
      if !found && i == i_end - 1 then
        round_robin_plus_aux e i_end rest true (mark_as_poison st i)
      else if (check_for_poison e st [i]).1 then
        round_robin_plus_aux e i_end rest true
          (mark_as_poison (check_for_poison e st [i]).2 i)
      else round_robin_plus_aux e i_end rest found (check_for_poison e st [i]).2 := rfl

theorem round_robin_plus_aux_length (e : PoisonedDrinksExperiment) (i_end : ℕ) :
    ∀ (l : List ℕ) (found : Bool) (st : SolverState),
      (round_robin_plus_aux e i_end l found st).solution.length =
        st.solution.length
  | [], _, _ => rfl
  | i :: rest, found, st => by
    rw [round_robin_plus_aux_cons]
    split
    · rw [round_robin_plus_aux_length e i_end rest, mark_length]
    · split
      · rw [round_robin_plus_aux_length e i_end rest, mark_length, check_solution_eq]
      · rw [round_robin_plus_aux_length e i_end rest, check_solution_eq]

/-- Effect of the `round_robin_plus` loop on the remaining indices
`range' i k` of the group, provided poison remains whenever none has been
found yet: exactly the poisoned glasses among the remaining ones get
marked. -/
theorem round_robin_plus_aux_spec (e : PoisonedDrinksExperiment) (i_end : ℕ) :
    ∀ (k i : ℕ) (found : Bool) (st : SolverState),
      i + k = i_end →
      i_end ≤ e.num_glasses →
      st.solution.length = e.num_glasses →
      (found = false → e.check_poison (List.range' i k) = true) →
      ∀ j, sol_at (round_robin_plus_aux e i_end (List.range' i k) found st) j = true ↔
        (sol_at st j = true ∨ (i ≤ j ∧ j < i_end ∧ poisoned e j = true))
  | 0, i, found, st, hk, hn, hlen, hinv, j => by
    constructor
    · intro h; exact Or.inl h
    · rintro (h | ⟨h1, h2, _⟩)
      · exact h
      · omega
  | k + 1, i, found, st, hk, hn, hlen, hinv, j => by
    rw [range'_succ_eq, round_robin_plus_aux_cons]
    by_cases hcond : (!found && i == i_end - 1) = true
    · rw [if_pos hcond]
      have hfe : found = false ∧ i = i_end - 1 := by
        simpa [Bool.and_eq_true] using hcond
      have hk0 : k = 0 := by omega
      subst hk0
      have hpi : poisoned e i = true := by
        have := hinv hfe.1
        rwa [show List.range' i 1 = [i] from rfl, check_poison_singleton] at this
      show sol_at (round_robin_plus_aux e i_end [] true (mark_as_poison st i)) j = true ↔ _
      show sol_at (mark_as_poison st i) j = true ↔ _
      by_cases hj : j = i
      · subst hj
        rw [mark_sol_at_self st j (by omega)]
        constructor
        · intro _; exact Or.inr ⟨le_refl j, by omega, hpi⟩
        · intro _; rfl
      · rw [mark_sol_at_other st i j hj]
        constructor
        · intro h; exact Or.inl h
        · rintro (h | ⟨h1, h2, h3⟩)
          · exact h
          · omega
    · rw [if_neg hcond]
      by_cases hpos : (check_for_poison e st [i]).1 = true
      · rw [if_pos hpos]
        have hpi : poisoned e i = true := by
          rwa [check_fst, check_poison_singleton] at hpos
        have ih := round_robin_plus_aux_spec e i_end k (i + 1) true
          (mark_as_poison (check_for_poison e st [i]).2 i)
          (by omega) hn
          (by rw [mark_length, check_solution_eq]; exact hlen)
          (by intro hff; cases hff) j
        rw [ih]
        have hsol : ∀ j2, sol_at (mark_as_poison (check_for_poison e st [i]).2 i) j2 =
            sol_at (mark_as_poison st i) j2 := by
          intro j2; rfl
        rw [hsol]
        by_cases hj : j = i
        · subst hj
          rw [mark_sol_at_self st j (by omega)]
          constructor
          · intro _; exact Or.inr ⟨le_refl j, by omega, hpi⟩
          · intro _; exact Or.inl rfl
        · rw [mark_sol_at_other st i j hj]
          constructor
          · rintro (h | ⟨h1, h2, h3⟩)
            · exact Or.inl h
            · exact Or.inr ⟨by omega, h2, h3⟩
          · rintro (h | ⟨h1, h2, h3⟩)
            · exact Or.inl h
            · exact Or.inr ⟨by omega, h2, h3⟩
      · rw [if_neg hpos]
        have hpi : poisoned e i = false := by
          rw [check_fst, check_poison_singleton] at hpos
          cases hx : poisoned e i
          · rfl
          · exact absurd hx hpos
        have ih := round_robin_plus_aux_spec e i_end k (i + 1) found
          (check_for_poison e st [i]).2
          (by omega) hn (by rw [check_solution_eq]; exact hlen)
          (by
            intro hff
            have := hinv hff
            rw [range'_succ_eq, check_poison_cons, hpi, Bool.false_or] at this
            exact this) j
        rw [ih]
        have hsol : ∀ j2, sol_at (check_for_poison e st [i]).2 j2 = sol_at st j2 := by
          intro j2; rfl
        rw [hsol]
        constructor
        · rintro (h | ⟨h1, h2, h3⟩)
          · exact Or.inl h
          · exact Or.inr ⟨by omega, h2, h3⟩
        · rintro (h | ⟨h1, h2, h3⟩)
          · exact Or.inl h
          · refine Or.inr ⟨?_, h2, h3⟩
            rcases Nat.eq_or_lt_of_le h1 with rfl | hlt
            · rw [h3] at hpi; cases hpi
            · omega

theorem round_robin_plus_length (e : PoisonedDrinksExperiment)
    (i_start i_end : ℕ) (st : SolverState) :
    (round_robin_plus e i_start i_end st).solution.length = st.solution.length :=
  round_robin_plus_aux_length e i_end _ false st

/-- Effect of a full `round_robin_plus` scrutiny call on a group
`[i_start, i_end)` known to contain poison: exactly the poisoned glasses of
the group get marked, everything else is untouched. -/
theorem round_robin_plus_spec (e : PoisonedDrinksExperiment)
    (i_start i_end : ℕ) (st : SolverState)
    (hse : i_start ≤ i_end) (hn : i_end ≤ e.num_glasses)
    (hlen : st.solution.length = e.num_glasses)
    (hpoison : e.check_poison (List.range' i_start (i_end - i_start)) = true) :
    ∀ j, sol_at (round_robin_plus e i_start i_end st) j = true ↔
      (sol_at st j = true ∨
        (i_start ≤ j ∧ j < i_end ∧ poisoned e j = true)) := by
  intro j
  exact round_robin_plus_aux_spec e i_end (i_end - i_start) i_start false st
    (by omega) hn hlen (fun _ => hpoison) j

theorem middle_valid : valid_split middle := by
  intro a b h
  right
  exact ⟨(a + b) / 2, rfl, by omega, by omega⟩

theorem minimum_expected_tests_complete_valid (p : ℚ) :
    valid_split (minimum_expected_tests_complete p) := by
  intro a b h
  unfold minimum_expected_tests_complete get_poisoned_group_size_split_point
  by_cases h0 : (get_poisoned_group_size_statistics p (b - a)).2 = 0
  · left
    rw [if_pos h0]
    rfl
  · right
    refine ⟨a + (get_poisoned_group_size_statistics p (b - a)).2, by rw [if_neg h0], by omega, ?_⟩
    have := gpss_snd_lt p (b - a) (by omega)
    omega

theorem deep_dive_eq_one (e : PoisonedDrinksExperiment)
    (split : ℕ → ℕ → Option ℕ) (fuel i_start i_end : ℕ) (st : SolverState)
    (h : i_end - i_start = 1) :
    deep_dive_poisoned_group e split (fuel + 1) i_start i_end st =
      mark_as_poison st i_start := by
  unfold deep_dive_poisoned_group
  rw [if_pos (by simpa using h)]

theorem deep_dive_eq_falsy (e : PoisonedDrinksExperiment)
    (split : ℕ → ℕ → Option ℕ) (fuel i_start i_end : ℕ) (st : SolverState)
    (h : 1 < i_end - i_start) (hf : split_is_falsy (split i_start i_end) = true) :
    deep_dive_poisoned_group e split (fuel + 1) i_start i_end st =
      round_robin_plus e i_start i_end st := by
  unfold deep_dive_poisoned_group
  rw [if_neg (by simp; omega), if_pos h, if_pos hf]

theorem deep_dive_eq_split (e : PoisonedDrinksExperiment)
    (split : ℕ → ℕ → Option ℕ) (fuel i_start i_end : ℕ) (st : SolverState)
    (h : 1 < i_end - i_start) (hf : ¬ split_is_falsy (split i_start i_end) = true) :
    deep_dive_poisoned_group e split (fuel + 1) i_start i_end st =
      (let i_split := (split i_start i_end).getD 0
       let left := check_for_poison e st (List.range' i_start (i_split - i_start))
       if left.1 then
         let st2 := deep_dive_poisoned_group e split fuel i_start i_split left.2
         let right := check_for_poison e st2 (List.range' i_split (i_end - i_split))
         if right.1 then deep_dive_poisoned_group e split fuel i_split i_end right.2
         else right.2
       else deep_dive_poisoned_group e split fuel i_split i_end left.2) := by
  conv_lhs => rw [deep_dive_poisoned_group]
  rw [if_neg (by simp; omega), if_pos h, if_neg hf]

theorem deep_dive_eq_degenerate (e : PoisonedDrinksExperiment)
    (split : ℕ → ℕ → Option ℕ) (fuel i_start i_end : ℕ) (st : SolverState)
    (h : i_end - i_start = 0) :
    deep_dive_poisoned_group e split (fuel + 1) i_start i_end st = st := by
  conv_lhs => rw [deep_dive_poisoned_group]
  rw [if_neg (by simp; omega), if_neg (by omega)]

theorem check_poison_range_append (e : PoisonedDrinksExperiment) :
    ∀ (m s k : ℕ),
      e.check_poison (List.range' s (m + k)) =
        (e.check_poison (List.range' s m) || e.check_poison (List.range' (s + m) k))
  | 0, s, k => by simp [PoisonedDrinksExperiment.check_poison]
  | m + 1, s, k => by
    rw [show m + 1 + k = (m + k) + 1 from by omega, range'_succ_eq, range'_succ_eq,
      check_poison_cons, check_poison_cons,
      check_poison_range_append e m (s + 1) k, Bool.or_assoc,
      show s + 1 + m = s + (m + 1) from by omega]

theorem deep_dive_length (e : PoisonedDrinksExperiment)
    (split : ℕ → ℕ → Option ℕ) :
    ∀ (fuel i_start i_end : ℕ) (st : SolverState),
      (deep_dive_poisoned_group e split fuel i_start i_end st).solution.length =
        st.solution.length
  | 0, _, _, _ => rfl
  | fuel + 1, i_start, i_end, st => by
    by_cases h1 : i_end - i_start = 1
    · rw [deep_dive_eq_one e split fuel i_start i_end st h1, mark_length]
    · by_cases h2 : 1 < i_end - i_start
      · by_cases hf : split_is_falsy (split i_start i_end) = true
        · rw [deep_dive_eq_falsy e split fuel i_start i_end st h2 hf,
            round_robin_plus_length]
        · rw [deep_dive_eq_split e split fuel i_start i_end st h2 hf]
          dsimp only
          split
          · split
            · rw [deep_dive_length e split fuel, check_solution_eq,
                deep_dive_length e split fuel, check_solution_eq]
            · rw [check_solution_eq, deep_dive_length e split fuel,
                check_solution_eq]
          · rw [deep_dive_length e split fuel, check_solution_eq]
      · rw [deep_dive_eq_degenerate e split fuel i_start i_end st (by omega)]

/-- Effect of a deep-dive scrutiny of a group `[i_start, i_end)` known to
contain poison, for any valid split strategy and sufficient fuel: exactly
the poisoned glasses of the group get marked. -/
theorem deep_dive_spec (e : PoisonedDrinksExperiment)
    (split : ℕ → ℕ → Option ℕ) (hsplit : valid_split split) :
    ∀ (fuel i_start i_end : ℕ) (st : SolverState),
      i_end - i_start ≤ fuel →
      i_end ≤ e.num_glasses →
      i_start < i_end →
      st.solution.length = e.num_glasses →
      e.check_poison (List.range' i_start (i_end - i_start)) = true →
      ∀ j, sol_at (deep_dive_poisoned_group e split fuel i_start i_end st) j = true ↔
        (sol_at st j = true ∨ (i_start ≤ j ∧ j < i_end ∧ poisoned e j = true))
  | 0, i_start, i_end, st, hfu, _, hlt, _, _, j => by exact absurd hfu (by omega)
  | fuel + 1, i_start, i_end, st, hfu, hn, hlt, hlen, hpoison, j => by
    by_cases h1 : i_end - i_start = 1
    · rw [deep_dive_eq_one e split fuel i_start i_end st h1]
      have hpi : poisoned e i_start = true := by
        rw [show i_end - i_start = 1 from h1] at hpoison
        rwa [show List.range' i_start 1 = [i_start] from rfl,
          check_poison_singleton] at hpoison
      by_cases hj : j = i_start
      · subst hj
        rw [mark_sol_at_self st j (by omega)]
        constructor
        · intro _; exact Or.inr ⟨le_refl j, by omega, hpi⟩
        · intro _; rfl
      · rw [mark_sol_at_other st i_start j hj]
        constructor
        · exact Or.inl
        · rintro (h | ⟨ha, hb, _⟩)
          · exact h
          · omega
    · have h2 : 1 < i_end - i_start := by omega
      rcases hsplit i_start i_end h2 with hf | ⟨v, hv, hv1, hv2⟩
      · rw [deep_dive_eq_falsy e split fuel i_start i_end st h2 hf]
        exact round_robin_plus_spec e i_start i_end st (by omega) hn hlen hpoison j
      · have hfne : ¬ split_is_falsy (split i_start i_end) = true := by
          rw [hv]
          simp [split_is_falsy]
          omega
        rw [deep_dive_eq_split e split fuel i_start i_end st h2 hfne, hv]
        simp only [Option.getD_some]
        have hLrange : e.check_poison (List.range' i_start (i_end - i_start)) =
            (e.check_poison (List.range' i_start (v - i_start)) ||
              e.check_poison (List.range' v (i_end - v))) := by
          rw [show i_end - i_start = (v - i_start) + (i_end - v) from by omega,
            check_poison_range_append,
            show i_start + (v - i_start) = v from by omega]
        by_cases hL : (check_for_poison e st (List.range' i_start (v - i_start))).1 = true
        · rw [if_pos hL]
          have hLp : e.check_poison (List.range' i_start (v - i_start)) = true := hL
          have ihL := deep_dive_spec e split hsplit fuel i_start v
            (check_for_poison e st (List.range' i_start (v - i_start))).2
            (by omega) (by omega) hv1 (by rw [check_solution_eq]; exact hlen) hLp
          have hlen2 : (deep_dive_poisoned_group e split fuel i_start v
              (check_for_poison e st (List.range' i_start (v - i_start))).2).solution.length =
              e.num_glasses := by
            rw [deep_dive_length, check_solution_eq]; exact hlen
          by_cases hR : (check_for_poison e
              (deep_dive_poisoned_group e split fuel i_start v
                (check_for_poison e st (List.range' i_start (v - i_start))).2)
              (List.range' v (i_end - v))).1 = true
          · rw [if_pos hR]
            have hRp : e.check_poison (List.range' v (i_end - v)) = true := hR
            have ihR := deep_dive_spec e split hsplit fuel v i_end
              (check_for_poison e
                (deep_dive_poisoned_group e split fuel i_start v
                  (check_for_poison e st (List.range' i_start (v - i_start))).2)
                (List.range' v (i_end - v))).2
              (by omega) hn hv2 (by rw [check_solution_eq]; exact hlen2) hRp j
            rw [ihR]
            have : ∀ j2, sol_at (check_for_poison e
                (deep_dive_poisoned_group e split fuel i_start v
                  (check_for_poison e st (List.range' i_start (v - i_start))).2)
                (List.range' v (i_end - v))).2 j2 = true ↔
                (sol_at st j2 = true ∨
                  (i_start ≤ j2 ∧ j2 < v ∧ poisoned e j2 = true)) := by
              intro j2
              exact ihL j2
            rw [this j]
            constructor
            · rintro ((h | ⟨ha, hb, hc⟩) | ⟨ha, hb, hc⟩)
              · exact Or.inl h
              · exact Or.inr ⟨ha, by omega, hc⟩
              · exact Or.inr ⟨by omega, hb, hc⟩
            · rintro (h | ⟨ha, hb, hc⟩)
              · exact Or.inl (Or.inl h)
              · by_cases hjv : j < v
                · exact Or.inl (Or.inr ⟨ha, hjv, hc⟩)
                · exact Or.inr ⟨by omega, hb, hc⟩
          · rw [if_neg hR]
            have hRfalse : e.check_poison (List.range' v (i_end - v)) = false := by
              cases hx : e.check_poison (List.range' v (i_end - v))
              · rfl
              · exact absurd hx hR
            have hclean := check_poison_range_false e v (i_end - v) hRfalse
            have : sol_at (check_for_poison e
                (deep_dive_poisoned_group e split fuel i_start v
                  (check_for_poison e st (List.range' i_start (v - i_start))).2)
                (List.range' v (i_end - v))).2 j = true ↔
                (sol_at st j = true ∨
                  (i_start ≤ j ∧ j < v ∧ poisoned e j = true)) := ihL j
            rw [this]
            constructor
            · rintro (h | ⟨ha, hb, hc⟩)
              · exact Or.inl h
              · exact Or.inr ⟨ha, by omega, hc⟩
            · rintro (h | ⟨ha, hb, hc⟩)
              · exact Or.inl h
              · by_cases hjv : j < v
                · exact Or.inr ⟨ha, hjv, hc⟩
                · exact absurd hc (by
                    rw [hclean j (by omega) (by omega)]
                    intro hfalse
                    cases hfalse)
        · rw [if_neg hL]
          have hLfalse : e.check_poison (List.range' i_start (v - i_start)) = false := by
            cases hx : e.check_poison (List.range' i_start (v - i_start))
            · rfl
            · exact absurd hx hL
          have hclean := check_poison_range_false e i_start (v - i_start) hLfalse
          have hRp : e.check_poison (List.range' v (i_end - v)) = true := by
            rw [hLrange, hLfalse, Bool.false_or] at hpoison
            exact hpoison
          have ihR := deep_dive_spec e split hsplit fuel v i_end
            (check_for_poison e st (List.range' i_start (v - i_start))).2
            (by omega) hn hv2 (by rw [check_solution_eq]; exact hlen) hRp j
          rw [ihR]
          constructor
          · rintro (h | ⟨ha, hb, hc⟩)
            · exact Or.inl h
            · exact Or.inr ⟨by omega, hb, hc⟩
          · rintro (h | ⟨ha, hb, hc⟩)
            · exact Or.inl h
            · by_cases hjv : j < v
              · exact absurd hc (by
                  rw [hclean j (by omega) (by omega)]
                  intro hfalse
                  cases hfalse)
              · exact Or.inr ⟨by omega, hb, hc⟩

theorem two_levels_loop_eq_done (e : PoisonedDrinksExperiment)
    (g : ℕ) (strat : ℕ → ℕ → SolverState → SolverState) (fuel i_start : ℕ)
    (st : SolverState) (h : ¬ i_start < e.num_glasses) :
    solver_two_levels_loop e g strat (fuel + 1) i_start st = st := by
  conv_lhs => rw [solver_two_levels_loop]
  rw [if_neg h]

theorem two_levels_loop_eq_step (e : PoisonedDrinksExperiment)
    (g : ℕ) (strat : ℕ → ℕ → SolverState → SolverState) (fuel i_start : ℕ)
    (st : SolverState) (h : i_start < e.num_glasses) :
    solver_two_levels_loop e g strat (fuel + 1) i_start st =
      (let i_end := min (i_start + g) e.num_glasses
       let r := check_for_poison e st (List.range' i_start (i_end - i_start))
       let st2 := if r.1 then strat i_start i_end r.2 else r.2
       solver_two_levels_loop e g strat fuel i_end st2) := by
  conv_lhs => rw [solver_two_levels_loop]
  rw [if_pos h]

/-- Invariant preserved by the two-level batch loop: assuming the
poisoned-group strategy marks exactly the poisoned glasses of every
positive batch it is handed, the loop marks exactly the poisoned glasses
of `[i_start, n)`. -/
theorem two_levels_loop_spec (e : PoisonedDrinksExperiment)
    (g : ℕ) (strat : ℕ → ℕ → SolverState → SolverState) (hg : 1 ≤ g)
    (hstrat : ∀ a b st2, a < b → b ≤ e.num_glasses →
      st2.solution.length = e.num_glasses →
      e.check_poison (List.range' a (b - a)) = true →
      (∀ j, sol_at (strat a b st2) j = true ↔
        (sol_at st2 j = true ∨ (a ≤ j ∧ j < b ∧ poisoned e j = true))) ∧
      (strat a b st2).solution.length = e.num_glasses) :
    ∀ (fuel i_start : ℕ) (st : SolverState),
      e.num_glasses - i_start ≤ fuel →
      st.solution.length = e.num_glasses →
      ∀ j, sol_at (solver_two_levels_loop e g strat fuel i_start st) j = true ↔
        (sol_at st j = true ∨
          (i_start ≤ j ∧ j < e.num_glasses ∧ poisoned e j = true))
  | 0, i_start, st, hfu, _, j => by
    have hge : e.num_glasses ≤ i_start := by omega
    show sol_at st j = true ↔ _
    constructor
    · exact Or.inl
    · rintro (h | ⟨ha, hb, _⟩)
      · exact h
      · omega
  | fuel + 1, i_start, st, hfu, hlen, j => by
    by_cases hlt : i_start < e.num_glasses
    · rw [two_levels_loop_eq_step e g strat fuel i_start st hlt]
      simp only
      set i_end := min (i_start + g) e.num_glasses with hie
      have hi1 : i_start < i_end := by omega
      have hi2 : i_end ≤ e.num_glasses := by omega
      by_cases hr : (check_for_poison e st (List.range' i_start (i_end - i_start))).1 = true
      · rw [if_pos hr]
        have hstr := hstrat i_start i_end
          (check_for_poison e st (List.range' i_start (i_end - i_start))).2
          hi1 hi2 (by rw [check_solution_eq]; exact hlen) hr
        have ih := two_levels_loop_spec e g strat hg hstrat fuel i_end
          (strat i_start i_end
            (check_for_poison e st (List.range' i_start (i_end - i_start))).2)
          (by omega) hstr.2 j
        rw [ih, hstr.1 j]
        have hs2 : ∀ j2, sol_at (check_for_poison e st
            (List.range' i_start (i_end - i_start))).2 j2 = sol_at st j2 := by
          intro j2; rfl
        rw [hs2]
        constructor
        · rintro ((h | ⟨ha, hb, hc⟩) | ⟨ha, hb, hc⟩)
          · exact Or.inl h
          · exact Or.inr ⟨ha, by omega, hc⟩
          · exact Or.inr ⟨by omega, hb, hc⟩
        · rintro (h | ⟨ha, hb, hc⟩)
          · exact Or.inl (Or.inl h)
          · by_cases hjv : j < i_end
            · exact Or.inl (Or.inr ⟨ha, hjv, hc⟩)
            · exact Or.inr ⟨by omega, hb, hc⟩
      · rw [if_neg hr]
        have hrf : e.check_poison (List.range' i_start (i_end - i_start)) = false := by
          cases hx : e.check_poison (List.range' i_start (i_end - i_start))
          · rfl
          · exact absurd hx hr
        have hclean := check_poison_range_false e i_start (i_end - i_start) hrf
        have ih := two_levels_loop_spec e g strat hg hstrat fuel i_end
          (check_for_poison e st (List.range' i_start (i_end - i_start))).2
          (by omega) (by rw [check_solution_eq]; exact hlen) j
        rw [ih]
        have hs2 : ∀ j2, sol_at (check_for_poison e st
            (List.range' i_start (i_end - i_start))).2 j2 = sol_at st j2 := by
          intro j2; rfl
        rw [hs2]
        constructor
        · rintro (h | ⟨ha, hb, hc⟩)
          · exact Or.inl h
          · exact Or.inr ⟨by omega, hb, hc⟩
        · rintro (h | ⟨ha, hb, hc⟩)
          · exact Or.inl h
          · by_cases hjv : j < i_end
            · exact absurd hc (by
                rw [hclean j (by omega) (by omega)]
                intro hfalse
                cases hfalse)
            · exact Or.inr ⟨by omega, hb, hc⟩
    · rw [two_levels_loop_eq_done e g strat fuel i_start st hlt]
      constructor
      · exact Or.inl
      · rintro (h | ⟨ha, hb, _⟩)
        · exact h
        · omega

theorem es_rr_aux_cons (e : PoisonedDrinksExperiment) (i_end i : ℕ)
    (rest : List ℕ) (lpi : Option ℕ) (st : SolverState) :
    early_stop_round_robin_plus_aux e i_end (i :: rest) lpi st =
      if lpi == none && i == i_end - 1 then (some i, mark_as_poison st i)
      else if (check_for_poison e st [i]).1 then
        (some i, mark_as_poison (check_for_poison e st [i]).2 i)
      else early_stop_round_robin_plus_aux e i_end rest lpi
        (check_for_poison e st [i]).2 := rfl

/-- The early-stop round robin on a nonempty remaining range always finds
an index inside the range (no poison assumption needed: the last index is
marked unconditionally). -/
theorem early_stop_rr_aux_some (e : PoisonedDrinksExperiment) (i_end : ℕ) :
    ∀ (k i : ℕ) (st : SolverState), 1 ≤ k → i + k = i_end →
      ∃ idx st2,
        early_stop_round_robin_plus_aux e i_end (List.range' i k) none st =
          (some idx, st2) ∧ i ≤ idx ∧ idx < i_end
  | 0, i, st, hk, _ => by omega
  | k + 1, i, st, _, hke => by
    rw [range'_succ_eq, es_rr_aux_cons]
    by_cases hlast : i = i_end - 1
    · rw [if_pos (by simp [hlast])]
      exact ⟨i, mark_as_poison st i, rfl, le_refl i, by omega⟩
    · rw [if_neg (by simp [hlast])]
      by_cases hp : (check_for_poison e st [i]).1 = true
      · rw [if_pos hp]
        exact ⟨i, _, rfl, le_refl i, by omega⟩
      · rw [if_neg hp]
        have ⟨idx, st2, heq, h1, h2⟩ := early_stop_rr_aux_some e i_end k (i + 1)
          (check_for_poison e st [i]).2 (by omega) (by omega)
        exact ⟨idx, st2, heq, by omega, h2⟩

/-- With poison known to remain, the early-stop round robin finds exactly
the first poisoned index of the remaining range, marks it and nothing
else. -/
theorem early_stop_rr_aux_spec (e : PoisonedDrinksExperiment) (i_end : ℕ) :
    ∀ (k i : ℕ) (st : SolverState),
      i + k = i_end →
      i_end ≤ e.num_glasses →
      st.solution.length = e.num_glasses →
      1 ≤ k →
      e.check_poison (List.range' i k) = true →
      ∃ idx st2,
        early_stop_round_robin_plus_aux e i_end (List.range' i k) none st =
          (some idx, st2) ∧
        i ≤ idx ∧ idx < i_end ∧ poisoned e idx = true ∧
        (∀ j, i ≤ j → j < idx → poisoned e j = false) ∧
        (∀ j, sol_at st2 j = true ↔ (sol_at st j = true ∨ j = idx)) ∧
        st2.solution.length = e.num_glasses
  | 0, i, st, _, _, _, hk, _ => by omega
  | k + 1, i, st, hke, hn, hlen, _, hpoison => by
    rw [range'_succ_eq, es_rr_aux_cons]
    by_cases hlast : i = i_end - 1
    · rw [if_pos (by simp [hlast])]
      have hk0 : k = 0 := by omega
      subst hk0
      have hpi : poisoned e i = true := by
        rwa [show List.range' i 1 = [i] from rfl, check_poison_singleton] at hpoison
      refine ⟨i, mark_as_poison st i, rfl, le_refl i, by omega, hpi,
        fun j h1 h2 => by omega, ?_, by rw [mark_length]; exact hlen⟩
      intro j
      by_cases hj : j = i
      · subst hj
        rw [mark_sol_at_self st j (by omega)]
        constructor
        · intro _; exact Or.inr rfl
        · intro _; rfl
      · rw [mark_sol_at_other st i j hj]
        constructor
        · exact Or.inl
        · rintro (h | rfl)
          · exact h
          · exact absurd rfl hj
    · rw [if_neg (by simp [hlast])]
      by_cases hp : (check_for_poison e st [i]).1 = true
      · rw [if_pos hp]
        have hpi : poisoned e i = true := by
          rwa [check_fst, check_poison_singleton] at hp
        refine ⟨i, _, rfl, le_refl i, by omega, hpi,
          fun j h1 h2 => by omega, ?_, by rw [mark_length, check_solution_eq]; exact hlen⟩
        intro j
        have hs : ∀ j2, sol_at (mark_as_poison (check_for_poison e st [i]).2 i) j2 =
            sol_at (mark_as_poison st i) j2 := fun j2 => rfl
        rw [hs]
        by_cases hj : j = i
        · subst hj
          rw [mark_sol_at_self st j (by omega)]
          constructor
          · intro _; exact Or.inr rfl
          · intro _; rfl
        · rw [mark_sol_at_other st i j hj]
          constructor
          · exact Or.inl
          · rintro (h | rfl)
            · exact h
            · exact absurd rfl hj
      · rw [if_neg hp]
        have hpi : poisoned e i = false := by
          rw [check_fst, check_poison_singleton] at hp
          cases hx : poisoned e i
          · rfl
          · exact absurd hx hp
        have hrest : e.check_poison (List.range' (i + 1) k) = true := by
          rw [range'_succ_eq, check_poison_cons, hpi, Bool.false_or] at hpoison
          exact hpoison
        have ⟨idx, st2, heq, h1, h2, h3, h4, h5, h6⟩ :=
          early_stop_rr_aux_spec e i_end k (i + 1) (check_for_poison e st [i]).2
            (by omega) hn (by rw [check_solution_eq]; exact hlen) (by omega) hrest
        refine ⟨idx, st2, heq, by omega, h2, h3, ?_, ?_, h6⟩
        · intro j hj1 hj2
          rcases Nat.eq_or_lt_of_le hj1 with rfl | hlt
          · exact hpi
          · exact h4 j (by omega) hj2
        · intro j
          rw [h5 j]
          have : sol_at (check_for_poison e st [i]).2 j = sol_at st j := rfl
          rw [this]

theorem es_dd_eq_one (e : PoisonedDrinksExperiment)
    (split : ℕ → ℕ → Option ℕ) (fuel i_start i_end : ℕ) (st : SolverState)
    (h : i_end - i_start = 1) :
    early_stop_deep_dive_poisoned_group e split (fuel + 1) i_start i_end st =
      (some i_start, mark_as_poison st i_start) := by
  conv_lhs => rw [early_stop_deep_dive_poisoned_group]
  rw [if_pos (by simpa using h)]

theorem es_dd_eq_falsy (e : PoisonedDrinksExperiment)
    (split : ℕ → ℕ → Option ℕ) (fuel i_start i_end : ℕ) (st : SolverState)
    (h : 1 < i_end - i_start) (hf : split_is_falsy (split i_start i_end) = true) :
    early_stop_deep_dive_poisoned_group e split (fuel + 1) i_start i_end st =
      early_stop_round_robin_plus e i_start i_end st := by
  conv_lhs => rw [early_stop_deep_dive_poisoned_group]
  rw [if_neg (by simp; omega), if_pos h, if_pos hf]

theorem es_dd_eq_split (e : PoisonedDrinksExperiment)
    (split : ℕ → ℕ → Option ℕ) (fuel i_start i_end : ℕ) (st : SolverState)
    (h : 1 < i_end - i_start) (hf : ¬ split_is_falsy (split i_start i_end) = true) :
    early_stop_deep_dive_poisoned_group e split (fuel + 1) i_start i_end st =
      (let i_split := (split i_start i_end).getD 0
       let left := check_for_poison e st (List.range' i_start (i_split - i_start))
       if left.1 then
         early_stop_deep_dive_poisoned_group e split fuel i_start i_split left.2
       else
         early_stop_deep_dive_poisoned_group e split fuel i_split i_end left.2) := by
  conv_lhs => rw [early_stop_deep_dive_poisoned_group]
  rw [if_neg (by simp; omega), if_pos h, if_neg hf]

/-- C10 helper: the early-stop deep dive on a nonempty group with a valid
split strategy always returns an index inside the group; the `None`
fall-throughs are unreachable. -/
theorem early_stop_deep_dive_some (e : PoisonedDrinksExperiment)
    (split : ℕ → ℕ → Option ℕ) (hsplit : valid_split split) :
    ∀ (fuel i_start i_end : ℕ) (st : SolverState),
      i_end - i_start ≤ fuel → 1 ≤ i_end - i_start →
      ∃ idx st2,
        early_stop_deep_dive_poisoned_group e split fuel i_start i_end st =
          (some idx, st2) ∧ i_start ≤ idx ∧ idx < i_end
  | 0, i_start, i_end, st, hfu, hsz => by omega
  | fuel + 1, i_start, i_end, st, hfu, hsz => by
    by_cases h1 : i_end - i_start = 1
    · rw [es_dd_eq_one e split fuel i_start i_end st h1]
      exact ⟨i_start, _, rfl, le_refl _, by omega⟩
    · have h2 : 1 < i_end - i_start := by omega
      rcases hsplit i_start i_end h2 with hf | ⟨v, hv, hv1, hv2⟩
      · rw [es_dd_eq_falsy e split fuel i_start i_end st h2 hf]
        exact early_stop_rr_aux_some e i_end (i_end - i_start) i_start st
          (by omega) (by omega)
      · have hfne : ¬ split_is_falsy (split i_start i_end) = true := by
          rw [hv]
          simp [split_is_falsy]
          omega
        rw [es_dd_eq_split e split fuel i_start i_end st h2 hfne, hv]
        simp only [Option.getD_some]
        by_cases hL : (check_for_poison e st
            (List.range' i_start (v - i_start))).1 = true
        · rw [if_pos hL]
          have ⟨idx, st2, heq, ha, hb⟩ := early_stop_deep_dive_some e split hsplit
            fuel i_start v (check_for_poison e st
              (List.range' i_start (v - i_start))).2 (by omega) (by omega)
          exact ⟨idx, st2, heq, ha, by omega⟩
        · rw [if_neg hL]
          have ⟨idx, st2, heq, ha, hb⟩ := early_stop_deep_dive_some e split hsplit
            fuel v i_end (check_for_poison e st
              (List.range' i_start (v - i_start))).2 (by omega) (by omega)
          exact ⟨idx, st2, heq, by omega, hb⟩

/-- With poison known present, the early-stop deep dive returns exactly the
first poisoned index of the group, marks it and nothing else. -/
theorem early_stop_deep_dive_spec (e : PoisonedDrinksExperiment)
    (split : ℕ → ℕ → Option ℕ) (hsplit : valid_split split) :
    ∀ (fuel i_start i_end : ℕ) (st : SolverState),
      i_end - i_start ≤ fuel →
      i_end ≤ e.num_glasses →
      i_start < i_end →
      st.solution.length = e.num_glasses →
      e.check_poison (List.range' i_start (i_end - i_start)) = true →
      ∃ idx st2,
        early_stop_deep_dive_poisoned_group e split fuel i_start i_end st =
          (some idx, st2) ∧
        i_start ≤ idx ∧ idx < i_end ∧ poisoned e idx = true ∧
        (∀ j, i_start ≤ j → j < idx → poisoned e j = false) ∧
        (∀ j, sol_at st2 j = true ↔ (sol_at st j = true ∨ j = idx)) ∧
        st2.solution.length = e.num_glasses
  | 0, i_start, i_end, st, hfu, _, hlt, _, _ => by omega
  | fuel + 1, i_start, i_end, st, hfu, hn, hlt, hlen, hpoison => by
    by_cases h1 : i_end - i_start = 1
    · rw [es_dd_eq_one e split fuel i_start i_end st h1]
      have hpi : poisoned e i_start = true := by
        rw [h1] at hpoison
        rwa [show List.range' i_start 1 = [i_start] from rfl,
          check_poison_singleton] at hpoison
      refine ⟨i_start, mark_as_poison st i_start, rfl, le_refl _, by omega, hpi,
        fun j ha hb => by omega, ?_, by rw [mark_length]; exact hlen⟩
      intro j
      by_cases hj : j = i_start
      · subst hj
        rw [mark_sol_at_self st j (by omega)]
        constructor
        · intro _; exact Or.inr rfl
        · intro _; rfl
      · rw [mark_sol_at_other st i_start j hj]
        constructor
        · exact Or.inl
        · rintro (h | rfl)
          · exact h
          · exact absurd rfl hj
    · have h2 : 1 < i_end - i_start := by omega
      rcases hsplit i_start i_end h2 with hf | ⟨v, hv, hv1, hv2⟩
      · rw [es_dd_eq_falsy e split fuel i_start i_end st h2 hf]
        exact early_stop_rr_aux_spec e i_end (i_end - i_start) i_start st
          (by omega) hn hlen (by omega) hpoison
      · have hfne : ¬ split_is_falsy (split i_start i_end) = true := by
          rw [hv]
          simp [split_is_falsy]
          omega
        rw [es_dd_eq_split e split fuel i_start i_end st h2 hfne, hv]
        simp only [Option.getD_some]
        have hLrange : e.check_poison (List.range' i_start (i_end - i_start)) =
            (e.check_poison (List.range' i_start (v - i_start)) ||
              e.check_poison (List.range' v (i_end - v))) := by
          rw [show i_end - i_start = (v - i_start) + (i_end - v) from by omega,
            check_poison_range_append,
            show i_start + (v - i_start) = v from by omega]
        by_cases hL : (check_for_poison e st
            (List.range' i_start (v - i_start))).1 = true
        · rw [if_pos hL]
          have hLp : e.check_poison (List.range' i_start (v - i_start)) = true := hL
          have ⟨idx, st2, heq, ha, hb, hc, hd, he, hf2⟩ :=
            early_stop_deep_dive_spec e split hsplit fuel i_start v
              (check_for_poison e st (List.range' i_start (v - i_start))).2
              (by omega) (by omega) hv1 (by rw [check_solution_eq]; exact hlen) hLp
          refine ⟨idx, st2, heq, ha, by omega, hc, hd, ?_, hf2⟩
          intro j
          rw [he j]
          have : sol_at (check_for_poison e st
              (List.range' i_start (v - i_start))).2 j = sol_at st j := rfl
          rw [this]
        · rw [if_neg hL]
          have hLfalse : e.check_poison (List.range' i_start (v - i_start)) = false := by
            cases hx : e.check_poison (List.range' i_start (v - i_start))
            · rfl
            · exact absurd hx hL
          have hclean := check_poison_range_false e i_start (v - i_start) hLfalse
          have hRp : e.check_poison (List.range' v (i_end - v)) = true := by
            rw [hLrange, hLfalse, Bool.false_or] at hpoison
            exact hpoison
          have ⟨idx, st2, heq, ha, hb, hc, hd, he, hf2⟩ :=
            early_stop_deep_dive_spec e split hsplit fuel v i_end
              (check_for_poison e st (List.range' i_start (v - i_start))).2
              (by omega) hn hv2 (by rw [check_solution_eq]; exact hlen) hRp
          refine ⟨idx, st2, heq, by omega, hb, hc, ?_, ?_, hf2⟩
          · intro j hj1 hj2
            by_cases hjv : j < v
            · exact hclean j (by omega) (by omega)
            · exact hd j (by omega) hj2
          · intro j
            rw [he j]
            have : sol_at (check_for_poison e st
                (List.range' i_start (v - i_start))).2 j = sol_at st j := rfl
            rw [this]

theorem es_loop_eq_done (e : PoisonedDrinksExperiment) (g : ℕ)
    (split : ℕ → ℕ → Option ℕ) (fuel i_start : ℕ) (st : SolverState)
    (h : ¬ i_start < e.num_glasses) :
    solver_early_stop_loop e g split (fuel + 1) i_start st = st := by
  conv_lhs => rw [solver_early_stop_loop]
  rw [if_neg h]

theorem es_loop_eq_step (e : PoisonedDrinksExperiment) (g : ℕ)
    (split : ℕ → ℕ → Option ℕ) (fuel i_start : ℕ) (st : SolverState)
    (h : i_start < e.num_glasses) :
    solver_early_stop_loop e g split (fuel + 1) i_start st =
      (let i_end := min (i_start + g) e.num_glasses
       let r := check_for_poison e st (List.range' i_start (i_end - i_start))
       if r.1 then
         match early_stop_deep_dive_poisoned_group e split (i_end - i_start)
             i_start i_end r.2 with
         | (some idx, st2) =>
           solver_early_stop_loop e g split fuel (idx + 1) st2
         | (none, st2) => st2
       else solver_early_stop_loop e g split fuel i_end r.2) := by
  conv_lhs => rw [solver_early_stop_loop]
  rw [if_pos h]

/-- Invariant of the early-stop top-level loop: with a valid split strategy
it marks exactly the poisoned glasses of `[i_start, n)`. -/
theorem early_stop_loop_spec (e : PoisonedDrinksExperiment) (g : ℕ)
    (split : ℕ → ℕ → Option ℕ) (hg : 1 ≤ g) (hsplit : valid_split split) :
    ∀ (fuel i_start : ℕ) (st : SolverState),
      e.num_glasses - i_start ≤ fuel →
      st.solution.length = e.num_glasses →
      ∀ j, sol_at (solver_early_stop_loop e g split fuel i_start st) j = true ↔
        (sol_at st j = true ∨
          (i_start ≤ j ∧ j < e.num_glasses ∧ poisoned e j = true))
  | 0, i_start, st, hfu, _, j => by
    show sol_at st j = true ↔ _
    constructor
    · exact Or.inl
    · rintro (h | ⟨ha, hb, _⟩)
      · exact h
      · omega
  | fuel + 1, i_start, st, hfu, hlen, j => by
    by_cases hlt : i_start < e.num_glasses
    · rw [es_loop_eq_step e g split fuel i_start st hlt]
      simp only
      set i_end := min (i_start + g) e.num_glasses with hie
      have hi1 : i_start < i_end := by omega
      have hi2 : i_end ≤ e.num_glasses := by omega
      by_cases hr : (check_for_poison e st (List.range' i_start (i_end - i_start))).1 = true
      · rw [if_pos hr]
        have ⟨idx, st2, heq, ha, hb, hc, hd, he, hf⟩ :=
          early_stop_deep_dive_spec e split hsplit (i_end - i_start) i_start i_end
            (check_for_poison e st (List.range' i_start (i_end - i_start))).2
            (le_refl _) hi2 hi1 (by rw [check_solution_eq]; exact hlen) hr
        rw [heq]
        have ih := early_stop_loop_spec e g split hg hsplit fuel (idx + 1) st2
          (by omega) hf j
        rw [ih, he j]
        have hs2 : ∀ j2, sol_at (check_for_poison e st
            (List.range' i_start (i_end - i_start))).2 j2 = sol_at st j2 := by
          intro j2; rfl
        rw [hs2]
        constructor
        · rintro ((h | rfl) | ⟨ha2, hb2, hc2⟩)
          · exact Or.inl h
          · exact Or.inr ⟨ha, by omega, hc⟩
          · exact Or.inr ⟨by omega, hb2, hc2⟩
        · rintro (h | ⟨ha2, hb2, hc2⟩)
          · exact Or.inl (Or.inl h)
          · by_cases hj : j = idx
            · exact Or.inl (Or.inr hj)
            · by_cases hj2 : j < idx
              · by_cases hj3 : j < i_end
                · exact absurd hc2 (by
                    rw [hd j (by omega) (by omega)]
                    intro hff
                    cases hff)
                · omega
              · exact Or.inr ⟨by omega, hb2, hc2⟩
      · rw [if_neg hr]
        have hrf : e.check_poison (List.range' i_start (i_end - i_start)) = false := by
          cases hx : e.check_poison (List.range' i_start (i_end - i_start))
          · rfl
          · exact absurd hx hr
        have hclean := check_poison_range_false e i_start (i_end - i_start) hrf
        have ih := early_stop_loop_spec e g split hg hsplit fuel i_end
          (check_for_poison e st (List.range' i_start (i_end - i_start))).2
          (by omega) (by rw [check_solution_eq]; exact hlen) j
        rw [ih]
        have hs2 : ∀ j2, sol_at (check_for_poison e st
            (List.range' i_start (i_end - i_start))).2 j2 = sol_at st j2 := by
          intro j2; rfl
        rw [hs2]
        constructor
        · rintro (h | ⟨ha, hb, hc⟩)
          · exact Or.inl h
          · exact Or.inr ⟨by omega, hb, hc⟩
        · rintro (h | ⟨ha, hb, hc⟩)
          · exact Or.inl h
          · by_cases hjv : j < i_end
            · exact absurd hc (by
                rw [hclean j (by omega) (by omega)]
                intro hff
                cases hff)
            · exact Or.inr ⟨by omega, hb, hc⟩
    · rw [es_loop_eq_done e g split fuel i_start st hlt]
      constructor
      · exact Or.inl
      · rintro (h | ⟨ha, hb, _⟩)
        · exact h
        · omega

theorem es_rr_aux_length (e : PoisonedDrinksExperiment) (i_end : ℕ) :
    ∀ (l : List ℕ) (lpi : Option ℕ) (st : SolverState),
      ((early_stop_round_robin_plus_aux e i_end l lpi st).2).solution.length =
        st.solution.length
  | [], _, _ => rfl
  | i :: rest, lpi, st => by
    rw [es_rr_aux_cons]
    split
    · rw [mark_length]
    · split
      · rw [mark_length, check_solution_eq]
      · rw [es_rr_aux_length e i_end rest, check_solution_eq]

theorem es_dd_length (e : PoisonedDrinksExperiment) (split : ℕ → ℕ → Option ℕ) :
    ∀ (fuel i_start i_end : ℕ) (st : SolverState),
      ((early_stop_deep_dive_poisoned_group e split fuel i_start i_end st).2).solution.length =
        st.solution.length
  | 0, _, _, _ => rfl
  | fuel + 1, i_start, i_end, st => by
    by_cases h1 : i_end - i_start = 1
    · rw [es_dd_eq_one e split fuel i_start i_end st h1, mark_length]
    · by_cases h2 : 1 < i_end - i_start
      · by_cases hfal : split_is_falsy (split i_start i_end) = true
        · rw [es_dd_eq_falsy e split fuel i_start i_end st h2 hfal]
          exact es_rr_aux_length e i_end _ none st
        · rw [es_dd_eq_split e split fuel i_start i_end st h2 hfal]
          dsimp only
          split
          · rw [es_dd_length e split fuel, check_solution_eq]
          · rw [es_dd_length e split fuel, check_solution_eq]
      · have h0 : i_end - i_start = 0 := by omega
        conv_lhs => rw [early_stop_deep_dive_poisoned_group]
        rw [if_neg (by simp; omega), if_neg (by omega)]

theorem two_levels_loop_length (e : PoisonedDrinksExperiment) (g : ℕ)
    (strat : ℕ → ℕ → SolverState → SolverState)
    (hstrat : ∀ a b st2, (strat a b st2).solution.length = st2.solution.length) :
    ∀ (fuel i_start : ℕ) (st : SolverState),
      (solver_two_levels_loop e g strat fuel i_start st).solution.length =
        st.solution.length
  | 0, _, _ => rfl
  | fuel + 1, i_start, st => by
    by_cases hlt : i_start < e.num_glasses
    · rw [two_levels_loop_eq_step e g strat fuel i_start st hlt]
      simp only
      rw [two_levels_loop_length e g strat hstrat fuel]
      split
      · rw [hstrat, check_solution_eq]
      · rw [check_solution_eq]
    · rw [two_levels_loop_eq_done e g strat fuel i_start st hlt]

theorem es_loop_length (e : PoisonedDrinksExperiment) (g : ℕ)
    (split : ℕ → ℕ → Option ℕ) :
    ∀ (fuel i_start : ℕ) (st : SolverState),
      (solver_early_stop_loop e g split fuel i_start st).solution.length =
        st.solution.length
  | 0, _, _ => rfl
  | fuel + 1, i_start, st => by
    by_cases hlt : i_start < e.num_glasses
    · rw [es_loop_eq_step e g split fuel i_start st hlt]
      simp only
      split
      · rcases hdd : early_stop_deep_dive_poisoned_group e split
            (min (i_start + g) e.num_glasses - i_start) i_start
            (min (i_start + g) e.num_glasses)
            (check_for_poison e st (List.range'
              i_start (min (i_start + g) e.num_glasses - i_start))).2 with ⟨oidx, st2⟩
        have hl2 : st2.solution.length = st.solution.length := by
          have := es_dd_length e split
            (min (i_start + g) e.num_glasses - i_start) i_start
            (min (i_start + g) e.num_glasses)
            (check_for_poison e st (List.range'
              i_start (min (i_start + g) e.num_glasses - i_start))).2
          rw [hdd] at this
          rw [this, check_solution_eq]
        cases oidx with
        | some idx =>
          show (solver_early_stop_loop e g split fuel (idx + 1) st2).solution.length = _
          rw [es_loop_length e g split fuel, hl2]
        | none =>
          show st2.solution.length = _
          exact hl2
      · rw [es_loop_length e g split fuel, check_solution_eq]
    · rw [es_loop_eq_done e g split fuel i_start st hlt]

theorem getD_replicate_false : ∀ (n j : ℕ),
    (List.replicate n false).getD j false = false
  | 0, _ => by simp
  | n + 1, 0 => rfl
  | n + 1, j + 1 => by
    simpa using getD_replicate_false n j

theorem load_sol_at (e : PoisonedDrinksExperiment) (j : ℕ) :
    sol_at (load_experiment e) j = false :=
  getD_replicate_false e.num_glasses j

theorem load_length (e : PoisonedDrinksExperiment) :
    (load_experiment e).solution.length = e.num_glasses :=
  List.length_replicate e.num_glasses false

theorem glasses_length (e : PoisonedDrinksExperiment) :
    e.glasses.length = e.num_glasses := rfl

/-- A solver state whose solution is characterized pointwise by the ground
truth equals the ground truth vector. -/
theorem solution_eq_glasses_of_spec (e : PoisonedDrinksExperiment)
    (st : SolverState) (hlen : st.solution.length = e.num_glasses)
    (hiff : ∀ j, sol_at st j = true ↔
      (j < e.num_glasses ∧ poisoned e j = true)) :
    st.solution = e.glasses := by
  apply list_eq_of_getD st.solution e.glasses (by rw [hlen, glasses_length])
  intro j
  by_cases hj : j < e.num_glasses
  · cases hp : poisoned e j
    · cases hs : sol_at st j
      · unfold sol_at at hs
        rw [hs]
        unfold poisoned at hp
        rw [hp]
      · exact absurd ((hiff j).mp hs).2 (by rw [hp]; intro hff; cases hff)
    · have : sol_at st j = true := (hiff j).mpr ⟨hj, hp⟩
      unfold sol_at at this
      rw [this]
      unfold poisoned at hp
      rw [hp]
  · have h1 : st.solution.getD j false = false := by
      cases hs : sol_at st j
      · exact hs
      · exact absurd ((hiff j).mp hs).1 hj
    rw [h1, getD_false_of_ge e.glasses j (by rw [glasses_length]; omega)]

/-- `solve` raises exactly when the derived solution differs from the
ground truth (the `ArithmeticError` branch of `base.py`). -/
theorem solve_error_iff (e : PoisonedDrinksExperiment)
    (core : SolverState → SolverState) :
    (∃ msg, solve e core = .error msg) ↔
      (core (load_experiment e)).solution ≠ e.glasses := by
  unfold solve PoisonedDrinksExperiment.check_solution
  by_cases h : (e.glasses == (core (load_experiment e)).solution) = true
  · rw [if_pos h]
    constructor
    · rintro ⟨msg, hmsg⟩
      cases hmsg
    · intro hne
      exact absurd (eq_of_beq h).symm hne
  · rw [if_neg h]
    constructor
    · rintro ⟨msg, _⟩
      intro heq
      exact h (by rw [heq]; exact beq_self_eq_true _)
    · intro _
      exact ⟨"The solution is incorrect. Fix your solver.", rfl⟩

/-- The two-level solver with round-robin-plus scrutiny recovers the exact
ground truth. -/
theorem two_levels_rr_solution (e : PoisonedDrinksExperiment) (g : ℕ)
    (hg : 1 ≤ g) :
    (solver_two_levels_core e g (round_robin_plus e)
      (load_experiment e)).solution = e.glasses := by
  apply solution_eq_glasses_of_spec
  · unfold solver_two_levels_core
    rw [two_levels_loop_length e g _ (fun a b st2 => round_robin_plus_length e a b st2),
      load_length]
  · intro j
    unfold solver_two_levels_core
    rw [two_levels_loop_spec e g (round_robin_plus e) hg
      (fun a b st2 hab hbn hl hp =>
        ⟨round_robin_plus_spec e a b st2 (by omega) hbn hl hp,
          by rw [round_robin_plus_length]; exact hl⟩)
      e.num_glasses 0 (load_experiment e) (by omega) (load_length e) j]
    rw [load_sol_at]
    constructor
    · rintro (h | ⟨_, hb, hc⟩)
      · cases h
      · exact ⟨hb, hc⟩
    · rintro ⟨hb, hc⟩
      exact Or.inr ⟨by omega, hb, hc⟩

/-- The deep-dive solver (two-level with split-based recursive scrutiny,
fuel = group size) recovers the exact ground truth for any valid split
strategy. -/
theorem deep_dive_solution (e : PoisonedDrinksExperiment) (g : ℕ)
    (split : ℕ → ℕ → Option ℕ) (hg : 1 ≤ g) (hsplit : valid_split split) :
    (solver_two_levels_core e g
      (fun a b st => deep_dive_poisoned_group e split (b - a) a b st)
      (load_experiment e)).solution = e.glasses := by
  apply solution_eq_glasses_of_spec
  · unfold solver_two_levels_core
    rw [two_levels_loop_length e g _
      (fun a b st2 => deep_dive_length e split (b - a) a b st2), load_length]
  · intro j
    unfold solver_two_levels_core
    rw [two_levels_loop_spec e g _ hg
      (fun a b st2 hab hbn hl hp =>
        ⟨deep_dive_spec e split hsplit (b - a) a b st2 (le_refl _) hbn hab hl hp,
          by rw [deep_dive_length]; exact hl⟩)
      e.num_glasses 0 (load_experiment e) (by omega) (load_length e) j]
    rw [load_sol_at]
    constructor
    · rintro (h | ⟨_, hb, hc⟩)
      · cases h
      · exact ⟨hb, hc⟩
    · rintro ⟨hb, hc⟩
      exact Or.inr ⟨by omega, hb, hc⟩

/-- The early-stop solver recovers the exact ground truth for any valid
split strategy. -/
theorem early_stop_solution (e : PoisonedDrinksExperiment) (g : ℕ)
    (split : ℕ → ℕ → Option ℕ) (hg : 1 ≤ g) (hsplit : valid_split split) :
    (solver_early_stop_core e g split (load_experiment e)).solution =
      e.glasses := by
  apply solution_eq_glasses_of_spec
  · unfold solver_early_stop_core
    rw [es_loop_length, load_length]
  · intro j
    unfold solver_early_stop_core
    rw [early_stop_loop_spec e g split hg hsplit e.num_glasses 0
      (load_experiment e) (by omega) (load_length e) j]
    rw [load_sol_at]
    constructor
    · rintro (h | ⟨_, hb, hc⟩)
      · cases h
      · exact ⟨hb, hc⟩
    · rintro ⟨hb, hc⟩
      exact Or.inr ⟨by omega, hb, hc⟩

theorem solve_ok_of_solution (e : PoisonedDrinksExperiment)
    (core : SolverState → SolverState)
    (h : (core (load_experiment e)).solution = e.glasses) :
    solve e core = .ok (core (load_experiment e)) := by
  unfold solve PoisonedDrinksExperiment.check_solution
  rw [if_pos (by rw [h]; exact beq_self_eq_true _)]

/-- C1. For every experiment (any ground truth, any `numItems n ≥ 1`, any
`p ∈ (0,1)`), each solving variant — two-level (round-robin-plus
scrutiny), deep-dive (two-level with split-based recursive scrutiny), and
early-stop — after `solve()` completes without raising, has set
`solution[i] = true` for exactly the contaminated items of the ground
truth and no others (the solution vector equals the ground truth, so
`solve` returns it without raising); and `solve()` raises the fatal
consistency error if and only if the derived solution vector differs from
the ground truth. -/
theorem C1_solver_variants_exact :
    (∀ (e : PoisonedDrinksExperiment) (core : SolverState → SolverState),
      (∃ msg, solve e core = .error msg) ↔
        (core (load_experiment e)).solution ≠ e.glasses) ∧
    (∀ (e : PoisonedDrinksExperiment) (g : ℕ),
      1 ≤ e.num_glasses → 1 ≤ g →
      solve e (solver_two_levels_core e g (round_robin_plus e)) =
        .ok (solver_two_levels_core e g (round_robin_plus e)
          (load_experiment e)) ∧
      (solver_two_levels_core e g (round_robin_plus e)
        (load_experiment e)).solution = e.glasses) ∧
    (∀ (e : PoisonedDrinksExperiment) (g : ℕ) (split : ℕ → ℕ → Option ℕ),
      1 ≤ e.num_glasses → 1 ≤ g → valid_split split →
      solve e (solver_two_levels_core e g
          (fun a b st => deep_dive_poisoned_group e split (b - a) a b st)) =
        .ok (solver_two_levels_core e g
          (fun a b st => deep_dive_poisoned_group e split (b - a) a b st)
          (load_experiment e)) ∧
      (solver_two_levels_core e g
        (fun a b st => deep_dive_poisoned_group e split (b - a) a b st)
        (load_experiment e)).solution = e.glasses) ∧
    (∀ (e : PoisonedDrinksExperiment) (g : ℕ) (split : ℕ → ℕ → Option ℕ),
      1 ≤ e.num_glasses → 1 ≤ g → valid_split split →
      solve e (solver_early_stop_core e g split) =
        .ok (solver_early_stop_core e g split (load_experiment e)) ∧
      (solver_early_stop_core e g split (load_experiment e)).solution =
        e.glasses) := by
  refine ⟨solve_error_iff, ?_, ?_, ?_⟩
  · intro e g _ hg
    have h := two_levels_rr_solution e g hg
    exact ⟨solve_ok_of_solution e _ h, h⟩
  · intro e g split _ hg hsplit
    have h := deep_dive_solution e g split hg hsplit
    exact ⟨solve_ok_of_solution e _ h, h⟩
  · intro e g split _ hg hsplit
    have h := early_stop_solution e g split hg hsplit
    exact ⟨solve_ok_of_solution e _ h, h⟩

/-- Witness for C1: the deep-dive and early-stop conjuncts at a concrete
two-glass experiment with the midpoint split strategy and batch size 1. -/
theorem C1_solver_variants_exact_witness :
    ((1 : ℕ) ≤ exampleExperimentTF.num_glasses ∧ (1 : ℕ) ≤ 1 ∧
      valid_split middle) ∧
    (solver_two_levels_core exampleExperimentTF 1
        (fun a b st =>
          deep_dive_poisoned_group exampleExperimentTF middle (b - a) a b st)
        (load_experiment exampleExperimentTF)).solution =
      exampleExperimentTF.glasses ∧
    (solver_early_stop_core exampleExperimentTF 1 middle
        (load_experiment exampleExperimentTF)).solution =
      exampleExperimentTF.glasses :=
  ⟨⟨by decide, by decide, middle_valid⟩,
    (C1_solver_variants_exact.2.2.1 exampleExperimentTF 1 middle (by decide)
      (by decide) middle_valid).2,
    (C1_solver_variants_exact.2.2.2 exampleExperimentTF 1 middle (by decide)
      (by decide) middle_valid).2⟩

theorem rr_aux_tests_mono (e : PoisonedDrinksExperiment) (i_end : ℕ) :
    ∀ (l : List ℕ) (found : Bool) (st : SolverState),
      st.num_tests ≤ (round_robin_plus_aux e i_end l found st).num_tests
  | [], _, _ => le_refl _
  | i :: rest, found, st => by
    rw [round_robin_plus_aux_cons]
    split
    · exact le_trans (le_of_eq (mark_num_tests st i).symm)
        (rr_aux_tests_mono e i_end rest true (mark_as_poison st i))
    · split
      · refine le_trans ?_ (rr_aux_tests_mono e i_end rest true _)
        rw [mark_num_tests, check_num_tests]
        omega
      · refine le_trans ?_ (rr_aux_tests_mono e i_end rest found _)
        rw [check_num_tests]
        omega

theorem dd_tests_mono (e : PoisonedDrinksExperiment)
    (split : ℕ → ℕ → Option ℕ) :
    ∀ (fuel i_start i_end : ℕ) (st : SolverState),
      st.num_tests ≤
        (deep_dive_poisoned_group e split fuel i_start i_end st).num_tests
  | 0, _, _, _ => le_refl _
  | fuel + 1, i_start, i_end, st => by
    by_cases h1 : i_end - i_start = 1
    · rw [deep_dive_eq_one e split fuel i_start i_end st h1, mark_num_tests]
    · by_cases h2 : 1 < i_end - i_start
      · by_cases hfal : split_is_falsy (split i_start i_end) = true
        · rw [deep_dive_eq_falsy e split fuel i_start i_end st h2 hfal]
          exact rr_aux_tests_mono e i_end _ false st
        · rw [deep_dive_eq_split e split fuel i_start i_end st h2 hfal]
          dsimp only
          split
          · split
            · refine le_trans ?_ (dd_tests_mono e split fuel _ _ _)
              rw [check_num_tests]
              have := dd_tests_mono e split fuel i_start
                ((split i_start i_end).getD 0)
                (check_for_poison e st (List.range' i_start
                  ((split i_start i_end).getD 0 - i_start))).2
              rw [check_num_tests] at this
              omega
            · rw [check_num_tests]
              have := dd_tests_mono e split fuel i_start
                ((split i_start i_end).getD 0)
                (check_for_poison e st (List.range' i_start
                  ((split i_start i_end).getD 0 - i_start))).2
              rw [check_num_tests] at this
              omega
          · refine le_trans ?_ (dd_tests_mono e split fuel _ _ _)
            rw [check_num_tests]
            omega
      · rw [deep_dive_eq_degenerate e split fuel i_start i_end st (by omega)]

theorem es_rr_tests_le_rr (e : PoisonedDrinksExperiment) (i_end : ℕ) :
    ∀ (l : List ℕ) (st : SolverState),
      ((early_stop_round_robin_plus_aux e i_end l none st).2).num_tests ≤
        (round_robin_plus_aux e i_end l false st).num_tests
  | [], _ => le_refl _
  | i :: rest, st => by
    rw [es_rr_aux_cons, round_robin_plus_aux_cons]
    have hcond : ((none : Option ℕ) == none && i == i_end - 1) =
        (!false && i == i_end - 1) := rfl
    rw [hcond]
    split
    · exact rr_aux_tests_mono e i_end rest true (mark_as_poison st i)
    · split
      · exact rr_aux_tests_mono e i_end rest true _
      · exact es_rr_tests_le_rr e i_end rest _

/-- Per scrutiny call on the same group with the same split strategy, the
early-stop deep dive never issues more tests than the exhaustive deep
dive (it performs a prefix of the same decisions and stops at the first
find). -/
theorem es_dd_tests_le_dd (e : PoisonedDrinksExperiment)
    (split : ℕ → ℕ → Option ℕ) :
    ∀ (fuel i_start i_end : ℕ) (st : SolverState),
      ((early_stop_deep_dive_poisoned_group e split fuel i_start i_end st).2).num_tests ≤
        (deep_dive_poisoned_group e split fuel i_start i_end st).num_tests
  | 0, _, _, _ => le_refl _
  | fuel + 1, i_start, i_end, st => by
    by_cases h1 : i_end - i_start = 1
    · rw [deep_dive_eq_one e split fuel i_start i_end st h1,
        es_dd_eq_one e split fuel i_start i_end st h1]
    · by_cases h2 : 1 < i_end - i_start
      · by_cases hfal : split_is_falsy (split i_start i_end) = true
        · rw [deep_dive_eq_falsy e split fuel i_start i_end st h2 hfal,
            es_dd_eq_falsy e split fuel i_start i_end st h2 hfal]
          exact es_rr_tests_le_rr e i_end _ st
        · rw [deep_dive_eq_split e split fuel i_start i_end st h2 hfal,
            es_dd_eq_split e split fuel i_start i_end st h2 hfal]
          dsimp only
          split
          · split
            · refine le_trans (es_dd_tests_le_dd e split fuel i_start
                ((split i_start i_end).getD 0) _) ?_
              refine le_trans ?_ (dd_tests_mono e split fuel _ _ _)
              rw [check_num_tests]
              omega
            · refine le_trans (es_dd_tests_le_dd e split fuel i_start
                ((split i_start i_end).getD 0) _) ?_
              rw [check_num_tests]
              omega
          · exact es_dd_tests_le_dd e split fuel _ i_end _
      · rw [deep_dive_eq_degenerate e split fuel i_start i_end st (by omega)]
        conv_lhs =>
          rw [early_stop_deep_dive_poisoned_group]
        rw [if_neg (by simp; omega), if_neg (by omega)]

theorem rr_aux_monotone (e : PoisonedDrinksExperiment) (i_end : ℕ) :
    ∀ (l : List ℕ) (found : Bool) (st : SolverState) (j : ℕ),
      sol_at st j = true →
      sol_at (round_robin_plus_aux e i_end l found st) j = true
  | [], _, _, _, h => h
  | i :: rest, found, st, j, h => by
    rw [round_robin_plus_aux_cons]
    split
    · exact rr_aux_monotone e i_end rest true _ j (mark_monotone st i j h)
    · split
      · exact rr_aux_monotone e i_end rest true _ j
          (mark_monotone (check_for_poison e st [i]).2 i j h)
      · exact rr_aux_monotone e i_end rest found _ j h

theorem dd_monotone (e : PoisonedDrinksExperiment)
    (split : ℕ → ℕ → Option ℕ) :
    ∀ (fuel i_start i_end : ℕ) (st : SolverState) (j : ℕ),
      sol_at st j = true →
      sol_at (deep_dive_poisoned_group e split fuel i_start i_end st) j = true
  | 0, _, _, _, _, h => h
  | fuel + 1, i_start, i_end, st, j, h => by
    by_cases h1 : i_end - i_start = 1
    · rw [deep_dive_eq_one e split fuel i_start i_end st h1]
      exact mark_monotone st i_start j h
    · by_cases h2 : 1 < i_end - i_start
      · by_cases hfal : split_is_falsy (split i_start i_end) = true
        · rw [deep_dive_eq_falsy e split fuel i_start i_end st h2 hfal]
          exact rr_aux_monotone e i_end _ false st j h
        · rw [deep_dive_eq_split e split fuel i_start i_end st h2 hfal]
          dsimp only
          split
          · split
            · exact dd_monotone e split fuel _ i_end _ j
                (dd_monotone e split fuel i_start _ _ j h)
            · exact dd_monotone e split fuel i_start _ _ j h
          · exact dd_monotone e split fuel _ i_end _ j h
      · rw [deep_dive_eq_degenerate e split fuel i_start i_end st (by omega)]
        exact h

theorem es_rr_aux_monotone (e : PoisonedDrinksExperiment) (i_end : ℕ) :
    ∀ (l : List ℕ) (lpi : Option ℕ) (st : SolverState) (j : ℕ),
      sol_at st j = true →
      sol_at ((early_stop_round_robin_plus_aux e i_end l lpi st).2) j = true
  | [], _, _, _, h => h
  | i :: rest, lpi, st, j, h => by
    rw [es_rr_aux_cons]
    split
    · exact mark_monotone st i j h
    · split
      · exact mark_monotone (check_for_poison e st [i]).2 i j h
      · exact es_rr_aux_monotone e i_end rest lpi _ j h

theorem es_dd_monotone (e : PoisonedDrinksExperiment)
    (split : ℕ → ℕ → Option ℕ) :
    ∀ (fuel i_start i_end : ℕ) (st : SolverState) (j : ℕ),
      sol_at st j = true →
      sol_at ((early_stop_deep_dive_poisoned_group e split fuel
        i_start i_end st).2) j = true
  | 0, _, _, _, _, h => h
  | fuel + 1, i_start, i_end, st, j, h => by
    by_cases h1 : i_end - i_start = 1
    · rw [es_dd_eq_one e split fuel i_start i_end st h1]
      exact mark_monotone st i_start j h
    · by_cases h2 : 1 < i_end - i_start
      · by_cases hfal : split_is_falsy (split i_start i_end) = true
        · rw [es_dd_eq_falsy e split fuel i_start i_end st h2 hfal]
          exact es_rr_aux_monotone e i_end _ none st j h
        · rw [es_dd_eq_split e split fuel i_start i_end st h2 hfal]
          dsimp only
          split
          · exact es_dd_monotone e split fuel i_start _ _ j h
          · exact es_dd_monotone e split fuel _ i_end _ j h
      · conv_lhs =>
          rw [early_stop_deep_dive_poisoned_group]
        rw [if_neg (by simp; omega), if_neg (by omega)]
        exact h

/-- C9. `mark_as_poison(i)` sets `solution[i] = true` and leaves every
other solution entry and the test count unchanged; `check_for_poison`
leaves the whole solution vector unchanged; and no scrutiny operation
(round-robin-plus, deep-dive, early-stop round robin, early-stop deep
dive) ever resets a solution entry from `true` back to `false`: the
solution vector is monotonically non-decreasing over a solve.  (The
experiment's ground truth is immutable by construction in the embedding:
no solver operation takes or returns an experiment.) -/
theorem C9_mark_frame_and_monotonicity :
    (∀ (st : SolverState) (i : ℕ), i < st.solution.length →
      sol_at (mark_as_poison st i) i = true) ∧
    (∀ (st : SolverState) (i j : ℕ), j ≠ i →
      sol_at (mark_as_poison st i) j = sol_at st j) ∧
    (∀ (st : SolverState) (i : ℕ),
      (mark_as_poison st i).num_tests = st.num_tests) ∧
    (∀ (e : PoisonedDrinksExperiment) (st : SolverState) (idx : List ℕ),
      (check_for_poison e st idx).2.solution = st.solution) ∧
    (∀ (e : PoisonedDrinksExperiment) (i_start i_end : ℕ) (st : SolverState)
      (j : ℕ), sol_at st j = true →
      sol_at (round_robin_plus e i_start i_end st) j = true) ∧
    (∀ (e : PoisonedDrinksExperiment) (split : ℕ → ℕ → Option ℕ)
      (fuel i_start i_end : ℕ) (st : SolverState) (j : ℕ),
      sol_at st j = true →
      sol_at (deep_dive_poisoned_group e split fuel i_start i_end st) j = true) ∧
    (∀ (e : PoisonedDrinksExperiment) (i_start i_end : ℕ) (st : SolverState)
      (j : ℕ), sol_at st j = true →
      sol_at ((early_stop_round_robin_plus e i_start i_end st).2) j = true) ∧
    (∀ (e : PoisonedDrinksExperiment) (split : ℕ → ℕ → Option ℕ)
      (fuel i_start i_end : ℕ) (st : SolverState) (j : ℕ),
      sol_at st j = true →
      sol_at ((early_stop_deep_dive_poisoned_group e split fuel
        i_start i_end st).2) j = true) :=
  ⟨mark_sol_at_self, mark_sol_at_other, mark_num_tests, check_solution_eq,
    fun e a b st j h => rr_aux_monotone e b _ false st j h,
    fun e split fuel a b st j h => dd_monotone e split fuel a b st j h,
    fun e a b st j h => es_rr_aux_monotone e b _ none st j h,
    fun e split fuel a b st j h => es_dd_monotone e split fuel a b st j h⟩

/-- Witness for C9 at concrete states: marking glass 0 of a 1-glass
solution sets it, leaves the test count, and survives a scrutiny step. -/
theorem C9_mark_frame_and_monotonicity_witness :
    ((0 : ℕ) < (⟨0, [false]⟩ : SolverState).solution.length ∧
      sol_at (mark_as_poison ⟨0, [false]⟩ 0) 0 = true) ∧
    ((1 : ℕ) ≠ 0 ∧
      sol_at (mark_as_poison ⟨0, [false, true]⟩ 0) 1 =
        sol_at (⟨0, [false, true]⟩ : SolverState) 1) ∧
    (sol_at (⟨0, [true, false]⟩ : SolverState) 0 = true ∧
      sol_at (round_robin_plus exampleExperimentTF 0 2 ⟨0, [true, false]⟩) 0 =
        true) :=
  ⟨⟨by decide, C9_mark_frame_and_monotonicity.1 ⟨0, [false]⟩ 0 (by decide)⟩,
   ⟨by decide, C9_mark_frame_and_monotonicity.2.1 ⟨0, [false, true]⟩ 0 1 (by decide)⟩,
   ⟨by decide, C9_mark_frame_and_monotonicity.2.2.2.2.1 exampleExperimentTF 0 2
      ⟨0, [true, false]⟩ 0 (by decide)⟩⟩

/-- C10. For every group `[i_start, i_end)` with `i_end - i_start ≥ 1`
(and fuel covering the group size, as the solver supplies), the early-stop
scrutiny functions always return an index in `[i_start, i_end)` — the
fall-through paths that would return `None` are unreachable for any valid
split strategy (both catalog strategies are valid) — so the caller's
`found index + 1` is always well-defined. -/
theorem C10_early_stop_scrutiny_returns_index :
    (∀ (e : PoisonedDrinksExperiment) (split : ℕ → ℕ → Option ℕ),
      valid_split split →
      ∀ (fuel i_start i_end : ℕ) (st : SolverState),
        1 ≤ i_end - i_start → i_end - i_start ≤ fuel →
        ∃ idx st2,
          early_stop_deep_dive_poisoned_group e split fuel i_start i_end st =
            (some idx, st2) ∧ i_start ≤ idx ∧ idx < i_end) ∧
    (∀ (e : PoisonedDrinksExperiment) (i_start i_end : ℕ) (st : SolverState),
      i_start < i_end →
      ∃ idx st2,
        early_stop_round_robin_plus e i_start i_end st = (some idx, st2) ∧
          i_start ≤ idx ∧ idx < i_end) :=
  ⟨fun e split hsplit fuel i_start i_end st hsz hfu =>
      early_stop_deep_dive_some e split hsplit fuel i_start i_end st hfu hsz,
    fun e i_start i_end st hlt =>
      early_stop_rr_aux_some e i_end (i_end - i_start) i_start st
        (by omega) (by omega)⟩

/-- Witness for C10 at a concrete experiment, group `[0, 2)`, midpoint
split. -/
theorem C10_early_stop_scrutiny_returns_index_witness :
    (valid_split middle ∧ (1 : ℕ) ≤ 2 - 0 ∧ (2 : ℕ) - 0 ≤ 2 ∧
      ∃ idx st2,
        early_stop_deep_dive_poisoned_group exampleExperimentTF middle 2 0 2
          (load_experiment exampleExperimentTF) = (some idx, st2) ∧
          0 ≤ idx ∧ idx < 2) ∧
    ((0 : ℕ) < 2 ∧
      ∃ idx st2,
        early_stop_round_robin_plus exampleExperimentTF 0 2
          (load_experiment exampleExperimentTF) = (some idx, st2) ∧
          0 ≤ idx ∧ idx < 2) :=
  ⟨⟨middle_valid, by decide, by decide,
      C10_early_stop_scrutiny_returns_index.1 exampleExperimentTF middle
        middle_valid 2 0 2 (load_experiment exampleExperimentTF)
        (by decide) (by decide)⟩,
    ⟨by decide,
      C10_early_stop_scrutiny_returns_index.2 exampleExperimentTF 0 2
        (load_experiment exampleExperimentTF) (by decide)⟩⟩

/-- C8. For every known-contaminated group `[i_start, i_end)` of size
greater than 1: when the split strategy reports no beneficial split point
(Python-falsy `0`/`None`), the split-based recursive scrutiny performs no
error path and runs the linear scan (`round_robin_plus`) on exactly
`[i_start, i_end)`; the optimal split strategy returns the degenerate
signal exactly when the engine's split point for the group size is `0`,
and otherwise `i_start + splitPoint`; and with a nonzero split point the
scrutiny takes the split branch at `i_start + splitPoint`. -/
theorem C8_degenerate_split_falls_back_to_linear_scan :
    (∀ (e : PoisonedDrinksExperiment) (split : ℕ → ℕ → Option ℕ)
      (fuel i_start i_end : ℕ) (st : SolverState),
      1 < i_end - i_start → split_is_falsy (split i_start i_end) = true →
      deep_dive_poisoned_group e split (fuel + 1) i_start i_end st =
        round_robin_plus e i_start i_end st) ∧
    (∀ (p : ℚ) (i_start i_end : ℕ),
      (minimum_expected_tests_complete p i_start i_end = none ↔
        (get_poisoned_group_size_statistics p (i_end - i_start)).2 = 0)) ∧
    (∀ (p : ℚ) (i_start i_end : ℕ),
      (get_poisoned_group_size_statistics p (i_end - i_start)).2 ≠ 0 →
      minimum_expected_tests_complete p i_start i_end =
        some (i_start + (get_poisoned_group_size_statistics p (i_end - i_start)).2)) ∧
    (∀ (e : PoisonedDrinksExperiment) (p : ℚ) (fuel i_start i_end : ℕ)
      (st : SolverState),
      1 < i_end - i_start →
      (get_poisoned_group_size_statistics p (i_end - i_start)).2 ≠ 0 →
      deep_dive_poisoned_group e (minimum_expected_tests_complete p)
          (fuel + 1) i_start i_end st =
        (let i_split :=
          i_start + (get_poisoned_group_size_statistics p (i_end - i_start)).2
         let left := check_for_poison e st
           (List.range' i_start (i_split - i_start))
         if left.1 then
           let st2 := deep_dive_poisoned_group e
             (minimum_expected_tests_complete p) fuel i_start i_split left.2
           let right := check_for_poison e st2
             (List.range' i_split (i_end - i_split))
           if right.1 then
             deep_dive_poisoned_group e (minimum_expected_tests_complete p)
               fuel i_split i_end right.2
           else right.2
         else
           deep_dive_poisoned_group e (minimum_expected_tests_complete p)
             fuel i_split i_end left.2)) := by
  refine ⟨deep_dive_eq_falsy, ?_, ?_, ?_⟩
  · intro p i_start i_end
    unfold minimum_expected_tests_complete get_poisoned_group_size_split_point
    constructor
    · intro h
      by_contra h0
      rw [if_neg h0] at h
      cases h
    · intro h
      rw [if_pos h]
  · intro p i_start i_end h0
    unfold minimum_expected_tests_complete get_poisoned_group_size_split_point
    rw [if_neg h0]
  · intro e p fuel i_start i_end st h2 h0
    have hsome : minimum_expected_tests_complete p i_start i_end =
        some (i_start +
          (get_poisoned_group_size_statistics p (i_end - i_start)).2) := by
      unfold minimum_expected_tests_complete get_poisoned_group_size_split_point
      rw [if_neg h0]
    have hfne : ¬ split_is_falsy
        (minimum_expected_tests_complete p i_start i_end) = true := by
      rw [hsome]
      simp [split_is_falsy]
      omega
    rw [deep_dive_eq_split e (minimum_expected_tests_complete p) fuel
      i_start i_end st h2 hfne, hsome]
    simp only [Option.getD_some]

/-- Concrete engine value used by the C8 witness: at `p = 1/4` the split
point for a group of size 3 is `1`. -/
theorem gpss_quarter_three_snd :
    (get_poisoned_group_size_statistics (1/4) 3).2 = 1 := by
  norm_num [get_poisoned_group_size_statistics, gpssTable,
    poisonedGroupCandidates, argminFirst, roundRobinCandidateCost,
    splitCandidateCost, prob_no_poison_in_first_x_given_at_least_one_poison,
    prob_at_least_one_poison_but_not_in_first_x, prob_at_least_one_poison,
    List.range_succ]

/-- Witness for C8: a degenerate split at a concrete group of size 2, and
the nonzero split point at `p = 1/4`, group `[0, 3)` whose engine split
point is 1. -/
theorem C8_degenerate_split_falls_back_to_linear_scan_witness :
    ((1 : ℕ) < 2 - 0 ∧
      split_is_falsy ((fun _ _ => none : ℕ → ℕ → Option ℕ) 0 2) = true ∧
      deep_dive_poisoned_group exampleExperimentTF (fun _ _ => none) 3 0 2
          (load_experiment exampleExperimentTF) =
        round_robin_plus exampleExperimentTF 0 2
          (load_experiment exampleExperimentTF)) ∧
    ((get_poisoned_group_size_statistics (1/4) (3 - 0)).2 ≠ 0 ∧
      minimum_expected_tests_complete (1/4) 0 3 =
        some (0 + (get_poisoned_group_size_statistics (1/4) (3 - 0)).2)) :=
  ⟨⟨by decide, by decide,
      C8_degenerate_split_falls_back_to_linear_scan.1 exampleExperimentTF
        (fun _ _ => none) 2 0 2 (load_experiment exampleExperimentTF)
        (by decide) (by decide)⟩,
    ⟨by rw [show (3 : ℕ) - 0 = 3 from rfl, gpss_quarter_three_snd]; decide,
      C8_degenerate_split_falls_back_to_linear_scan.2.2.1 (1/4) 0 3
        (by rw [show (3 : ℕ) - 0 = 3 from rfl, gpss_quarter_three_snd]; decide)⟩⟩

/-- C3 counterexample: constructing with `p = 2` (outside `(0,1)`) and with
`n = 0` both succeed — the constructor performs no validation. -/
theorem C3_no_rejection_counterexample :
    (∃ ex, PoisonedDrinksExperiment.init 5 2 (fun _ => 1/2) = Except.ok ex) ∧
    (∃ ex, PoisonedDrinksExperiment.init 0 (1/2) (fun _ => 1/2) =
      Except.ok ex) :=
  ⟨⟨_, rfl⟩, ⟨_, rfl⟩⟩

/-- C3 amended: the `Experiment` constructor performs no validation of
`p` or of `n = 0`; it raises (the numpy negative-dimension `ValueError`)
exactly when `numItems` is negative. -/
theorem C3_only_negative_size_raises :
    ∀ (num_glasses : ℤ) (poison_chance : ℚ) (randoms : ℕ → ℚ),
      (∃ ex, PoisonedDrinksExperiment.init num_glasses poison_chance randoms =
        Except.ok ex) ↔ 0 ≤ num_glasses := by
  intro n p r
  unfold PoisonedDrinksExperiment.init
  by_cases h : n < 0
  · rw [if_pos h]
    constructor
    · rintro ⟨ex, hex⟩
      cases hex
    · intro h2
      omega
  · rw [if_neg h]
    constructor
    · intro _
      omega
    · intro _
      exact ⟨_, rfl⟩

/-- C4 amended: for every group and state, a single early-stop scrutiny
call issues at most as many tests as the deep-dive scrutiny of the same
group with the same split strategy (it performs a prefix of the same
decisions and stops at the first find); the claim's total-count
comparison over a complete solve is refuted by the counterexample. -/
theorem C4_early_stop_scrutiny_tests_le :
    ∀ (e : PoisonedDrinksExperiment) (split : ℕ → ℕ → Option ℕ)
      (fuel i_start i_end : ℕ) (st : SolverState),
      ((early_stop_deep_dive_poisoned_group e split fuel
        i_start i_end st).2).num_tests ≤
        (deep_dive_poisoned_group e split fuel i_start i_end st).num_tests :=
  fun e split => es_dd_tests_le_dd e split

/-- C4 counterexample: with ground truth all-poisoned (n = 4), top-level
batch size 4 and the midpoint split strategy for both solvers, the
deep-dive solver issues 7 tests in total but the early-stop solver issues
8 — the early-stop total is NOT less than or equal to the two-level
total. -/
theorem C4_total_tests_counterexample :
    (solver_two_levels_core exampleExperimentAllPoisoned 4
      (fun a b st => deep_dive_poisoned_group exampleExperimentAllPoisoned
        middle (b - a) a b st)
      (load_experiment exampleExperimentAllPoisoned)).num_tests = 7 ∧
    (solver_early_stop_core exampleExperimentAllPoisoned 4 middle
      (load_experiment exampleExperimentAllPoisoned)).num_tests = 8 ∧
    ¬ ((solver_early_stop_core exampleExperimentAllPoisoned 4 middle
        (load_experiment exampleExperimentAllPoisoned)).num_tests ≤
      (solver_two_levels_core exampleExperimentAllPoisoned 4
        (fun a b st => deep_dive_poisoned_group exampleExperimentAllPoisoned
          middle (b - a) a b st)
        (load_experiment exampleExperimentAllPoisoned)).num_tests) := by
  decide

/-- C5 counterexample: the linear-scan-only solver (batch size 8,
round-robin-plus scrutiny) on the scenario issues 9 tests, not between 7
and 8 — a poison is found before the last glass, so the last glass is
individually tested rather than inferred. -/
theorem C5_linear_scan_count_counterexample :
    (solver_two_levels_core exampleExperimentScenario8 8
      (round_robin_plus exampleExperimentScenario8)
      (load_experiment exampleExperimentScenario8)).num_tests = 9 ∧
    ¬ (7 ≤ (solver_two_levels_core exampleExperimentScenario8 8
        (round_robin_plus exampleExperimentScenario8)
        (load_experiment exampleExperimentScenario8)).num_tests ∧
      (solver_two_levels_core exampleExperimentScenario8 8
        (round_robin_plus exampleExperimentScenario8)
        (load_experiment exampleExperimentScenario8)).num_tests ≤ 8) := by
  decide

/-- C5 amended: on the scenario, the linear-scan-only solver marks exactly
the indices 2 and 6 as contaminated (solution equals ground truth), and
issues exactly 9 tests in total (1 top-level batch test plus 8 individual
tests: the last glass is tested because poison was found earlier). -/
theorem C5_linear_scan_marks_and_count :
    (solver_two_levels_core exampleExperimentScenario8 8
      (round_robin_plus exampleExperimentScenario8)
      (load_experiment exampleExperimentScenario8)).solution =
      [false, false, true, false, false, false, true, false] ∧
    (solver_two_levels_core exampleExperimentScenario8 8
      (round_robin_plus exampleExperimentScenario8)
      (load_experiment exampleExperimentScenario8)).num_tests = 9 := by
  decide

/-- Witness for the amended C3 at a concrete valid size. -/
theorem C3_only_negative_size_raises_witness :
    (∃ ex, PoisonedDrinksExperiment.init 3 (1/2) (fun _ => 1/2) =
      Except.ok ex) ↔ (0 : ℤ) ≤ 3 :=
  C3_only_negative_size_raises 3 (1/2) (fun _ => 1/2)

/-- Witness for the amended C4 at a concrete scrutiny call. -/
theorem C4_early_stop_scrutiny_tests_le_witness :
    ((early_stop_deep_dive_poisoned_group exampleExperimentAllPoisoned middle
      4 0 4 (load_experiment exampleExperimentAllPoisoned)).2).num_tests ≤
      (deep_dive_poisoned_group exampleExperimentAllPoisoned middle 4 0 4
        (load_experiment exampleExperimentAllPoisoned)).num_tests :=
  C4_early_stop_scrutiny_tests_le exampleExperimentAllPoisoned middle 4 0 4
    (load_experiment exampleExperimentAllPoisoned)
